import Mathlib

/-!
Verification of the linuxgamebench benchmark importer and CLI against its
natural-language specification.

Python strings are modelled as `List Char` (`PyStr`), bytes as `List Nat`
with values below 256.  Pure helper functions from the source are embedded
directly; external collaborators (the gzip library, the Steam library
scanner, the filesystem) are passed in as explicit parameters or records.
-/

namespace LGB

abbrev PyStr := List Char

/-- Python's `needle in haystack` substring test. -/
def containsSub (hay needle : PyStr) : Bool :=
  hay.tails.any (fun t => needle.isPrefixOf t)

/-- Characters stripped by Python `str.strip()` / split by `str.split()`. -/
def pyIsSpace (c : Char) : Bool :=
  c = ' ' || c = '\t' || c = '\n' || c = '\r' || c = '\x0b' || c = '\x0c'

/-- Python `str.strip()`: drop leading and trailing whitespace. -/
def pyStrip (l : PyStr) : PyStr :=
  ((l.dropWhile pyIsSpace).reverse.dropWhile pyIsSpace).reverse

/-- Python `str.split(sep)` for a one-character separator: keeps empty parts,
and `"".split(sep) == [""]`. -/
def pySplit (sep : Char) : PyStr → List PyStr
  | [] => [[]]
  | x :: xs =>
    if x = sep then [] :: pySplit sep xs
    else
      match pySplit sep xs with
      | [] => [[x]]
      | h :: t => (x :: h) :: t

/-- Python `str.split()` with no argument: split on runs of whitespace,
producing no empty tokens.  The head of `l.dropWhile pyIsSpace` is never a
whitespace character, so taking the head unconditionally into the first
token is exact. -/
def pySplitWsAux : Nat → PyStr → List PyStr
  | 0, _ => []
  | fuel + 1, l =>
    match l.dropWhile pyIsSpace with
    | [] => []
    | c :: rest =>
      (c :: rest.takeWhile (fun c => !pyIsSpace c)) ::
        pySplitWsAux fuel (rest.dropWhile (fun c => !pyIsSpace c))

def pySplitWs (l : PyStr) : List PyStr := pySplitWsAux l.length l

/-- Python `sep.join(parts)`. -/
def pyJoin (sep : PyStr) : List PyStr → PyStr
  | [] => []
  | [t] => t
  | t :: t' :: ts => t ++ sep ++ pyJoin sep (t' :: ts)

/-! ### Resolution normalization (`import_benchmarks.py`)

`RES_MAP = {"3840x2160": "UHD", "2560x1440": "WQHD", "1920x1080": "FHD"}`
and, per `import_benchmarks` lines 238-240:

    resolution = res_dir.name
    if resolution not in RES_MAP.values():
        resolution = RES_MAP.get(resolution, resolution)
-/

/-- `RES_MAP` from `import_benchmarks.py`, as an association list in the
dictionary's insertion order. -/
def RES_MAP : List (PyStr × PyStr) :=
  [("3840x2160".toList, "UHD".toList),
   ("2560x1440".toList, "WQHD".toList),
   ("1920x1080".toList, "FHD".toList)]

/-- `RES_MAP.values()`. -/
def RES_MAP_values : List PyStr := RES_MAP.map Prod.snd

/-- `RES_MAP.get(r, r)`. -/
def resMapGetD (r : PyStr) : PyStr :=
  match RES_MAP.lookup r with
  | some v => v
  | none => r

/-- The resolution-normalization step applied before grouping in
`import_benchmarks` (lines 238-240). -/
def normalizeResolution (r : PyStr) : PyStr :=
  if r ∈ RES_MAP_values then r else resMapGetD r

/-- The six resolution directory names admitted by `import_benchmarks`
(line 235). -/
def resolutionLabels : List PyStr :=
  ["FHD".toList, "WQHD".toList, "UHD".toList,
   "1920x1080".toList, "2560x1440".toList, "3840x2160".toList]

/-! ### Trace-completion polling (`cli.py`, `get_new_logs` in `record` and
`record_manual`)

    for log_file in output_dir.glob("*.csv"):
        if "_summary" not in log_file.name and log_file.name not in processed_logs:
            size1 = log_file.stat().st_size
            time.sleep(0.5)
            size2 = log_file.stat().st_size
            if size1 == size2 and size1 > 1000:
                new_logs.append(log_file)

A candidate `.csv` file is modelled by its name and the two sizes returned
by the two `stat` calls taken 0.5 seconds apart. -/

/-- One `.csv` file in the recording directory: its name and the file sizes
observed at the two samples taken 0.5 s apart. -/
structure LogFile where
  name : PyStr
  size1 : Nat
  size2 : Nat
  deriving DecidableEq

/-- `get_new_logs` from `cli.py` (lines 987-998 and 1460-1471): the files
kept by one poll, given the already-processed name set. -/
def get_new_logs (files : List LogFile) (processed : List PyStr) : List LogFile :=
  files.filter (fun f =>
    !containsSub f.name "_summary".toList && !processed.contains f.name &&
      (f.size1 == f.size2 && 1000 < f.size1))

/-! ### Cleanup on session exit (`cli.py`, `record` lines 1136-1144 and
`record_manual` lines 1633-1637)

`record` ends its monitoring phase with

    except KeyboardInterrupt:
        console.print(...)
    finally:
        mangohud_manager.restore_config()
        try:
            restore_launch_options(target_game["app_id"])
        except:
            pass

while `record_manual` ends with

    except KeyboardInterrupt:
        console.print(...)
    finally:
        mangohud_manager.restore_config()

The model below captures Python `try/except KeyboardInterrupt/finally`
control flow: an exception raised inside the `finally` block replaces any
in-flight exception and skips the rest of the block; `except: pass`
swallows a failure of the guarded statement. -/

/-- How the monitored body of the session ends. -/
inductive BodyResult where
  | ok
  | interrupt
  | err (code : Nat)
  deriving DecidableEq

/-- What the whole command does after the `finally` block. -/
inductive ExitOutcome where
  | completed
  | raisedBody (code : Nat)
  | raisedMangoRestore
  deriving DecidableEq

/-- Which cleanup steps ran and how the command ended. -/
structure CleanupTrace where
  mangoRestoreRan : Bool
  launchRestoreRan : Bool
  outcome : ExitOutcome
  deriving DecidableEq

/-- Exit behaviour of `record` (lines 1136-1144): `mangoFails` and
`launchFails` say whether the two restoration calls raise. -/
def recordExit (body : BodyResult) (mangoFails launchFails : Bool) :
    CleanupTrace :=
  if mangoFails then
    -- `restore_config()` raised inside `finally`: the rest of the block is
    -- skipped and its exception replaces any in-flight one.
    ⟨true, false, .raisedMangoRestore⟩
  else
    -- `restore_launch_options` runs inside `try/except: pass`, so its
    -- failure (`launchFails`) is swallowed either way.
    match body with
    | .err c => ⟨true, true, .raisedBody c⟩
    | _ => ⟨true, true, .completed⟩

/-- Exit behaviour of `record_manual` (lines 1633-1637): only the MangoHud
configuration is restored; Steam launch options are never touched. -/
def recordManualExit (body : BodyResult) (mangoFails : Bool) : CleanupTrace :=
  if mangoFails then
    ⟨true, false, .raisedMangoRestore⟩
  else
    match body with
    | .err c => ⟨true, false, .raisedBody c⟩
    | _ => ⟨true, false, .completed⟩

/-! ### Steam launch-options restoration (`steam/launch_options.py`)

    def restore_launch_options(app_id: int) -> bool:
        original = get_original_launch_options(app_id)
        if original is not None:
            return set_launch_options(app_id, original, backup=False)
        return clear_launch_options(app_id)

`get_original_launch_options` returns `None` when `find_localconfig()` finds
no config file, when no `.vdf.bak` backup exists, or when the regex finds no
`LaunchOptions` entry for the app id in the backup; otherwise the captured
options string.  The filesystem and the `re.search` over the backup content
are modelled by an environment record. -/

/-- Environment for the launch-options module: whether `localconfig.vdf`
and its `.vdf.bak` backup exist, and the `LaunchOptions` string the backup
regex captures for each app id (none when there is no entry). -/
structure SteamEnv where
  configExists : Bool
  backupExists : Bool
  backupLaunchOptions : Int → Option PyStr

/-- `get_original_launch_options` (lines 177-193). -/
def get_original_launch_options (env : SteamEnv) (appId : Int) : Option PyStr :=
  if !env.configExists then none
  else if !env.backupExists then none
  else env.backupLaunchOptions appId

/-- `set_launch_options` (lines 51-136), abstracted to its observable
effect: the launch-options string written for the app, or a
`FileNotFoundError` when there is no `localconfig.vdf`. -/
def set_launch_options (env : SteamEnv) (options : PyStr) : Except Unit PyStr :=
  if env.configExists then .ok options else .error ()

/-- `clear_launch_options` (lines 172-174). -/
def clear_launch_options (env : SteamEnv) : Except Unit PyStr :=
  set_launch_options env []

/-- `restore_launch_options` (lines 196-201). -/
def restore_launch_options (env : SteamEnv) (appId : Int) : Except Unit PyStr :=
  match get_original_launch_options env appId with
  | some original => set_launch_options env original
  | none => clear_launch_options env

/-! ### Decimal numerals (used by f-strings, `json.dumps` and `int()`) -/

/-- The decimal digit character for `n < 10`. -/
def digitChar (n : Nat) : Char := Char.ofNat (48 + n)

/-- Decimal rendering, fuel recursion so the kernel can evaluate it; the
fuel is irrelevant as soon as it exceeds the value (`natReprAux_fuel`). -/
def natReprAux : Nat → Nat → PyStr
  | 0, _ => []
  | fuel + 1, n =>
    if n < 10 then [digitChar n]
    else natReprAux fuel (n / 10) ++ [digitChar (n % 10)]

/-- Decimal rendering of a natural number, as Python's `str`/`repr`. -/
def natRepr (n : Nat) : PyStr := natReprAux (n + 1) n

/-- Decimal rendering of an integer. -/
def intRepr (n : Int) : PyStr :=
  if n < 0 then '-' :: natRepr (-n).toNat else natRepr n.toNat

def isDigit (c : Char) : Bool := '0' ≤ c && c ≤ '9'

def digitVal (c : Char) : Nat := c.toNat - 48

/-- Digit-run parser for Python `int()`: a nonempty digit sequence in which
single underscores may separate digits. -/
def pyIntDigitsGo (acc : Nat) : List Char → Option Nat
  | [] => some acc
  | '_' :: c :: rest =>
    if isDigit c then pyIntDigitsGo (acc * 10 + digitVal c) rest else none
  | ['_'] => none
  | c :: rest =>
    if isDigit c then pyIntDigitsGo (acc * 10 + digitVal c) rest else none

def pyIntDigits : List Char → Option Nat
  | [] => none
  | c :: rest => if isDigit c then pyIntDigitsGo (digitVal c) rest else none

/-- Python `int(s)`: surrounding whitespace, an optional sign, then decimal
digits; `none` models the `ValueError`. -/
def pyInt (s : PyStr) : Option Int :=
  match pyStrip s with
  | '+' :: rest => (pyIntDigits rest).map Int.ofNat
  | '-' :: rest => (pyIntDigits rest).map (fun n => -(n : Int))
  | rest => (pyIntDigits rest).map Int.ofNat

/-! ### `GameFinder.find` (`games/game_finder.py`, `games/models.py`)

External collaborators — the local Steam library scanner
(`steam/library_scanner.py`), the Steam Store search
(`get_multiple_matches`), `difflib`'s `similarity`, and the interactive
selection menu which reads from the console — are modelled as an
environment record.  `GameInfo` and its constructors follow
`games/models.py`. -/

inductive GameSource where
  | steamLocal
  | steamStore
  | igdb
  | steamgriddb
  | manual
  deriving DecidableEq

/-- `GameInfo` from `games/models.py`. -/
structure GameInfo where
  name : PyStr
  source : GameSource
  steamAppId : Option Int := none
  installDir : Option PyStr := none
  igdbId : Option Int := none
  coverUrl : Option PyStr := none
  isInstalled : Bool := false
  hasBuiltinBenchmark : Bool := false
  benchmarkArgs : List PyStr := []
  similarityScore : ℚ := 0
  deriving DecidableEq

/-- One game dictionary produced by the local Steam library scanner; the
fields read through `dict.get` are optional. -/
structure LocalGame where
  name : Option PyStr := none
  appId : Option Int := none
  installDir : Option PyStr := none
  hasBuiltinBenchmark : Bool := false
  benchmarkArgs : List PyStr := []
  deriving DecidableEq

/-- `GameInfo.from_steam_local`. -/
def GameInfo.from_steam_local (g : LocalGame) : GameInfo :=
  { name := g.name.getD "Unknown".toList
    source := .steamLocal
    steamAppId := g.appId
    installDir := g.installDir
    isInstalled := true
    hasBuiltinBenchmark := g.hasBuiltinBenchmark
    benchmarkArgs := g.benchmarkArgs }

/-- `GameInfo.from_steam_store`; the `appid` of a Steam Store match comes
from `item.get("id")` and may be absent. -/
def GameInfo.from_steam_store (appId : Option Int) (name : PyStr)
    (similarity : ℚ) : GameInfo :=
  { name := name
    source := .steamStore
    steamAppId := appId
    isInstalled := false
    similarityScore := similarity }

/-- `GameInfo.manual`. -/
def GameInfo.manual (name : PyStr) : GameInfo :=
  { name := name
    source := .manual
    isInstalled := false }

/-- One Steam Store search match as returned by `get_multiple_matches`. -/
structure StoreMatch where
  appid : Option Int
  name : PyStr
  similarity : ℚ
  deriving DecidableEq

/-- Environment of `GameFinder`: the lazy scanner (`None` when Steam was not
found), the scanned local library, `get_game_by_id`, the Steam Store search
and `difflib` similarity, plus the console-driven interactive selection. -/
structure FinderEnv where
  scannerAvailable : Bool
  localGames : List LocalGame
  getGameById : Int → Option LocalGame
  storeMatches : PyStr → List StoreMatch
  sim : PyStr → PyStr → ℚ
  interactiveSelect : List GameInfo → PyStr → Option GameInfo

/-- Python `str.lower()` on one character (ASCII range, which covers the
catalog names involved). -/
def pyLower (c : Char) : Char :=
  if 'A' ≤ c && c ≤ 'Z' then Char.ofNat (c.toNat + 32) else c

/-- `GameFinder._find_by_app_id` (lines 137-151): always yields a
`GameInfo`. -/
def findByAppId (env : FinderEnv) (appId : Int) : GameInfo :=
  match (if env.scannerAvailable then env.getGameById appId else none) with
  | some localGame => GameInfo.from_steam_local localGame
  | none =>
    { name := "Steam App ".toList ++ intRepr appId
      source := .steamStore
      steamAppId := some appId
      isInstalled := false }

/-- The loop of `GameFinder._search_local` (lines 153-179), tracking the
best partial match and its score. -/
def searchLocalAux (env : FinderEnv) (query queryLower : PyStr) :
    List LocalGame → Option LocalGame → ℚ → Option GameInfo
  | [], best, bestScore =>
    match best with
    | some bm =>
      if bestScore ≥ 6/10 then
        some { GameInfo.from_steam_local bm with similarityScore := bestScore }
      else none
    | none => none
  | g :: rest, best, bestScore =>
    let gameName := (g.name.getD []).map pyLower
    if queryLower = gameName then some (GameInfo.from_steam_local g)
    else if containsSub gameName queryLower then
      let score := env.sim query (g.name.getD [])
      if score > bestScore then searchLocalAux env query queryLower rest (some g) score
      else searchLocalAux env query queryLower rest best bestScore
    else searchLocalAux env query queryLower rest best bestScore

/-- `GameFinder._search_local`. -/
def searchLocal (env : FinderEnv) (query : PyStr) : Option GameInfo :=
  searchLocalAux env query (query.map pyLower) env.localGames none 0

/-- `GameFinder._search_steam_store` (lines 181-194). -/
def searchSteamStore (env : FinderEnv) (query : PyStr) : List GameInfo :=
  (env.storeMatches query).map (fun m => GameInfo.from_steam_store m.appid m.name m.similarity)

/-- `GameFinder.find` (lines 80-135). -/
def GameFinder.find (env : FinderEnv) (query : PyStr) (interactive : Bool)
    (autoSelectThreshold : ℚ := 95/100) : Option GameInfo :=
  match pyInt query with
  | some appId => some (findByAppId env appId)
  | none =>
    match searchLocal env query with
    | some localResult => some localResult
    | none =>
      match searchSteamStore env query with
      | [] => some (GameInfo.manual query)
      | first :: rest =>
        if first.similarityScore ≥ autoSelectThreshold then some first
        else if interactive && (first :: rest).length > 1 then
          env.interactiveSelect (first :: rest) query
        else some first

/-! ### Hardware-name normalization (`import_benchmarks.py`, lines 36-68) -/

/-- `shorten_gpu` from `import_benchmarks.py`.  `model.split("(")[0]` is
`(pySplit '(' model).headI`, and `parts[:40] if len(parts) > 40 else parts`
is the final conditional. -/
def shorten_gpu (model : PyStr) : PyStr :=
  if model = [] then "Unknown".toList
  else if containsSub model "7900 XTX".toList then "RX 7900 XTX".toList
  else if containsSub model "7900 XT".toList && !containsSub model "XTX".toList then
    "RX 7900 XT".toList
  else if containsSub model "7800 XT".toList then "RX 7800 XT".toList
  else if containsSub model "Iris".toList && containsSub model "Xe".toList then
    (if containsSub model "TGL".toList then "Iris Xe (TGL)".toList else "Iris Xe".toList)
  else if containsSub model "RTX 4090".toList then "RTX 4090".toList
  else if containsSub model "RTX 4080".toList then "RTX 4080".toList
  else if containsSub model "RTX 4070".toList then "RTX 4070".toList
  else
    let parts := pyStrip (pySplit '(' model).headI
    if parts.length > 40 then parts.take 40 else parts

/-- `shorten_cpu` from `import_benchmarks.py`:
`" ".join(model.split()[:4])` in the default branch. -/
def shorten_cpu (model : PyStr) : PyStr :=
  if model = [] then "Unknown".toList
  else if containsSub model "9800X3D".toList then "Ryzen 7 9800X3D".toList
  else if containsSub model "i5-1135G7".toList then "i5-1135G7".toList
  else pyJoin " ".toList ((pySplitWs model).take 4)

/-! ### MD5 (`hashlib.md5`, per RFC 1321) and the system hash

`import_benchmarks.py` line 218:

    system_hash = hashlib.md5(f"{os_name}_{gpu}_{cpu}".encode()).hexdigest()[:8]
-/

def add32 (a b : Nat) : Nat := (a + b) % 4294967296

def not32 (x : Nat) : Nat := x ^^^ 4294967295

def rotl32 (x n : Nat) : Nat := ((x <<< n) % 4294967296) ||| (x >>> (32 - n))

def md5F (b c d : Nat) : Nat := (b &&& c) ||| (not32 b &&& d)

def md5G (b c d : Nat) : Nat := (b &&& d) ||| (c &&& not32 d)

def md5H (b c d : Nat) : Nat := b ^^^ c ^^^ d

def md5I (b c d : Nat) : Nat := c ^^^ (b ||| not32 d)

/-- The 64 sine-derived round constants of MD5. -/
def md5K : List Nat :=
  [0xd76aa478, 0xe8c7b756, 0x242070db, 0xc1bdceee,
   0xf57c0faf, 0x4787c62a, 0xa8304613, 0xfd469501,
   0x698098d8, 0x8b44f7af, 0xffff5bb1, 0x895cd7be,
   0x6b901122, 0xfd987193, 0xa679438e, 0x49b40821,
   0xf61e2562, 0xc040b340, 0x265e5a51, 0xe9b6c7aa,
   0xd62f105d, 0x02441453, 0xd8a1e681, 0xe7d3fbc8,
   0x21e1cde6, 0xc33707d6, 0xf4d50d87, 0x455a14ed,
   0xa9e3e905, 0xfcefa3f8, 0x676f02d9, 0x8d2a4c8a,
   0xfffa3942, 0x8771f681, 0x6d9d6122, 0xfde5380c,
   0xa4beea44, 0x4bdecfa9, 0xf6bb4b60, 0xbebfbc70,
   0x289b7ec6, 0xeaa127fa, 0xd4ef3085, 0x04881d05,
   0xd9d4d039, 0xe6db99e5, 0x1fa27cf8, 0xc4ac5665,
   0xf4292244, 0x432aff97, 0xab9423a7, 0xfc93a039,
   0x655b59c3, 0x8f0ccc92, 0xffeff47d, 0x85845dd1,
   0x6fa87e4f, 0xfe2ce6e0, 0xa3014314, 0x4e0811a1,
   0xf7537e82, 0xbd3af235, 0x2ad7d2bb, 0xeb86d391]

/-- The per-round left-rotation amounts of MD5. -/
def md5S : List Nat :=
  [7, 12, 17, 22, 7, 12, 17, 22, 7, 12, 17, 22, 7, 12, 17, 22,
   5, 9, 14, 20, 5, 9, 14, 20, 5, 9, 14, 20, 5, 9, 14, 20,
   4, 11, 16, 23, 4, 11, 16, 23, 4, 11, 16, 23, 4, 11, 16, 23,
   6, 10, 15, 21, 6, 10, 15, 21, 6, 10, 15, 21, 6, 10, 15, 21]

/-- Message-word schedule of MD5. -/
def md5MsgIdx (i : Nat) : Nat :=
  if i < 16 then i
  else if i < 32 then (5 * i + 1) % 16
  else if i < 48 then (3 * i + 5) % 16
  else (7 * i) % 16

/-- Little-endian 32-bit word `i` of a 64-byte block. -/
def leWord (block : List Nat) (i : Nat) : Nat :=
  block.getD (4 * i) 0 + 256 * block.getD (4 * i + 1) 0 +
    65536 * block.getD (4 * i + 2) 0 + 16777216 * block.getD (4 * i + 3) 0

abbrev Md5State := Nat × Nat × Nat × Nat

/-- One MD5 round. -/
def md5Round (block : List Nat) (st : Md5State) (i : Nat) : Md5State :=
  let (a, b, c, d) := st
  let f :=
    if i < 16 then md5F b c d
    else if i < 32 then md5G b c d
    else if i < 48 then md5H b c d
    else md5I b c d
  let fv := add32 (add32 f a) (add32 (md5K.getD i 0) (leWord block (md5MsgIdx i)))
  (d, add32 b (rotl32 fv (md5S.getD i 0)), b, c)

/-- 64 rounds plus the feed-forward addition for one 512-bit block. -/
def md5ProcessBlock (st : Md5State) (block : List Nat) : Md5State :=
  let (a0, b0, c0, d0) := st
  let (a, b, c, d) := (List.range 64).foldl (md5Round block) st
  (add32 a0 a, add32 b0 b, add32 c0 c, add32 d0 d)

/-- Block loop, fuel recursion (one fuel unit per 64-byte block suffices
since 64 bytes are consumed per step). -/
def md5BlocksAux : Nat → Md5State → List Nat → Md5State
  | 0, st, _ => st
  | fuel + 1, st, bytes =>
    match bytes with
    | [] => st
    | b :: rest => md5BlocksAux fuel (md5ProcessBlock st ((b :: rest).take 64)) ((b :: rest).drop 64)

def md5Blocks (st : Md5State) (bytes : List Nat) : Md5State :=
  md5BlocksAux bytes.length st bytes

/-- The eight little-endian bytes of the 64-bit message bit length. -/
def toLE8 (n : Nat) : List Nat :=
  [n % 256, n / 256 % 256, n / 65536 % 256, n / 16777216 % 256,
   n / 4294967296 % 256, n / 1099511627776 % 256,
   n / 281474976710656 % 256, n / 72057594037927936 % 256]

/-- The four little-endian bytes of a 32-bit state word. -/
def toLE4 (n : Nat) : List Nat :=
  [n % 256, n / 256 % 256, n / 65536 % 256, n / 16777216 % 256]

/-- MD5 padding: `0x80`, zeros to 56 mod 64, then the bit length. -/
def md5Pad (msg : List Nat) : List Nat :=
  let z := (56 + 64 - (msg.length + 1) % 64) % 64
  msg ++ [128] ++ List.replicate z 0 ++ toLE8 (8 * msg.length % 18446744073709551616)

/-- The 16-byte MD5 digest of a byte string. -/
def md5Digest (msg : List Nat) : List Nat :=
  let (a, b, c, d) :=
    md5Blocks (0x67452301, 0xefcdab89, 0x98badcfe, 0x10325476) (md5Pad msg)
  toLE4 a ++ toLE4 b ++ toLE4 c ++ toLE4 d

def hexChar (n : Nat) : Char := if n < 10 then digitChar n else Char.ofNat (87 + n)

def byteHex (b : Nat) : List Char := [hexChar (b / 16), hexChar (b % 16)]

/-- `hashlib.md5(...).hexdigest()`.  (Checked against the RFC 1321 test
vectors: `md5Hexdigest [] = "d41d8cd98f00b204e9800998ecf8427e"` and
`md5Hexdigest (bytes of "abc") = "900150983cd24fb0d6963f7d28e17f72"`.) -/
def md5Hexdigest (msg : List Nat) : PyStr := ((md5Digest msg).map byteHex).flatten

/-- Python `str.encode('utf-8')` for one character. -/
def utf8EncodeChar (c : Char) : List Nat :=
  let n := c.toNat
  if n < 128 then [n]
  else if n < 2048 then [192 + n / 64, 128 + n % 64]
  else if n < 65536 then [224 + n / 4096, 128 + n / 64 % 64, 128 + n % 64]
  else [240 + n / 262144, 128 + n / 4096 % 64, 128 + n / 64 % 64, 128 + n % 64]

/-- Python `str.encode('utf-8')`. -/
def utf8Encode (s : PyStr) : List Nat := (s.map utf8EncodeChar).flatten

/-- `system_hash` from `import_benchmarks.py` line 218:
`hashlib.md5(f"{os_name}_{gpu}_{cpu}".encode()).hexdigest()[:8]`. -/
def system_hash (osName gpu cpu : PyStr) : PyStr :=
  (md5Hexdigest (utf8Encode (osName ++ "_".toList ++ gpu ++ "_".toList ++ cpu))).take 8

/-! ### The persisted system record (`import_benchmarks.py`, lines 206-227)

    gpu = shorten_gpu(gpu_info.get("model", "Unknown"))
    cpu = shorten_cpu(cpu_info.get("model", "Unknown"))
    os_name = os_info.get("name", "Linux")
    kernel = os_info.get("kernel", "").split("-")[0]
    mesa = gpu_info.get("driver_version", "")
    ram_gb = int(sys_info.get("ram", {}).get("total_gb", 0))
    system_hash = hashlib.md5(...).hexdigest()[:8]
    ... INSERT ... INTO systems (system_hash, os, kernel, gpu, gpu_driver, cpu, ram_gb)
-/

/-- The fields of `system_info.json` that the importer reads; each
`dict.get` with a default is modelled by an `Option`. -/
structure SysInfo where
  gpuModel : Option PyStr
  gpuDriverVersion : Option PyStr
  cpuModel : Option PyStr
  osName : Option PyStr
  kernel : Option PyStr
  ramTotalGb : Option ℚ

/-- Python `int()` applied to a JSON number: truncation toward zero. -/
def pyTrunc (q : ℚ) : Int := if q < 0 then ⌈q⌉ else ⌊q⌋

/-- The row inserted into the `systems` table: exactly the seven
domain fields bound by the `INSERT` statement. -/
structure SystemRecord where
  systemHash : PyStr
  os : PyStr
  kernel : PyStr
  gpu : PyStr
  gpuDriver : PyStr
  cpu : PyStr
  ramGb : Int
  deriving DecidableEq

/-- The system record built and persisted by `import_benchmarks`
(lines 206-227). -/
def buildSystemRecord (sys : SysInfo) : SystemRecord :=
  let gpu := shorten_gpu (sys.gpuModel.getD "Unknown".toList)
  let cpu := shorten_cpu (sys.cpuModel.getD "Unknown".toList)
  let osName := sys.osName.getD "Linux".toList
  let kernel := (pySplit '-' (sys.kernel.getD [])).headI
  let mesa := sys.gpuDriverVersion.getD []
  let ram := pyTrunc (sys.ramTotalGb.getD 0)
  { systemHash := system_hash osName gpu cpu
    os := osName
    kernel := kernel
    gpu := gpu
    gpuDriver := mesa
    cpu := cpu
    ramGb := ram }

/-! ### Frametime compression (`import_benchmarks.py`, lines 71-77)

    def compress_frametimes(frametimes):
        if not frametimes:
            return ""
        json_data = json.dumps(frametimes)
        compressed = gzip.compress(json_data.encode('utf-8'))
        return base64.b64encode(compressed).decode('ascii')

`json.dumps` of a list of numbers and `base64` are embedded concretely.
The frame intervals are Python floats (the repository fixtures hold values
such as `16.67`); `json.dumps` serializes a float as `repr(x)`, the
shortest decimal string that parses back to the very same float — a
round-trip Python guarantees — so distinct floats have distinct reprs and
a float value is modelled faithfully by the decimal text structure `repr`
prints: `[-] intDigits [. fracDigits] [e(+|-)expDigits]`.  Losslessness of
the serialized text over that grammar is exactly losslessness of the
numeric sequence.  `gzip` (an external library) is passed in as an
abstract byte-level codec. -/

/-- A JSON number as `json.dumps` serializes a Python float (or int): the
sign, the integer-part value, the fractional digits as printed (empty when
`repr` printed no decimal point, as in `1e+16`), and the optional exponent
as its sign and printed digits (so `1.5e-05` keeps the leading zero). -/
structure PyFloat where
  neg : Bool
  intPart : Nat
  frac : List Nat
  exp : Option (Bool × List Nat)
  deriving DecidableEq

/-- Digit lists of a `PyFloat` are in range and exponent digits are
nonempty — true of every string `repr` prints. -/
def PyFloat.WF (f : PyFloat) : Bool :=
  f.frac.all (fun d => d < 10) &&
    match f.exp with
    | none => true
    | some (_, ds) => !ds.isEmpty && ds.all (fun d => d < 10)

/-- The decimal text `repr` (and hence `json.dumps`) prints for the
number. -/
def pyFloatRepr (f : PyFloat) : PyStr :=
  (if f.neg then ['-'] else []) ++ natRepr f.intPart ++
    (if f.frac = [] then [] else '.' :: f.frac.map digitChar) ++
    (match f.exp with
     | none => []
     | some (es, ds) => 'e' :: (if es then '-' else '+') :: ds.map digitChar)

/-- `json.dumps` of a list of numbers: `[x, y, z]` with `", "` between
elements. -/
def jsonDumpsFloats (l : List PyFloat) : PyStr :=
  '[' :: (pyJoin ", ".toList (l.map pyFloatRepr) ++ [']'])

/-- The optional `.digits` fraction at the head of the input. -/
def parseFracPart (s : PyStr) : Option (List Nat × PyStr) :=
  match s with
  | [] => some ([], [])
  | c :: s' =>
    if c = '.' then
      if s'.takeWhile isDigit = [] then none
      else some ((s'.takeWhile isDigit).map digitVal, s'.dropWhile isDigit)
    else some ([], c :: s')

/-- The optional `e±digits` exponent at the head of the input. -/
def parseExpPart (s : PyStr) : Option (Option (Bool × List Nat) × PyStr) :=
  match s with
  | c :: sc :: s' =>
    if c = 'e' then
      if sc = '+' ∨ sc = '-' then
        if s'.takeWhile isDigit = [] then none
        else some (some (sc == '-', (s'.takeWhile isDigit).map digitVal),
          s'.dropWhile isDigit)
      else none
    else some (none, c :: sc :: s')
  | s => some (none, s)

/-- Integer digits, fraction and exponent after the sign has been read. -/
def parseJsonNumberBody (sign : Bool) (s1 : PyStr) : Option (PyFloat × PyStr) :=
  if s1.takeWhile isDigit = [] then none
  else
    match parseFracPart (s1.dropWhile isDigit) with
    | none => none
    | some (fr, s2) =>
      match parseExpPart s2 with
      | none => none
      | some (ex, s3) =>
        some (⟨sign, (s1.takeWhile isDigit).foldl (fun acc c => acc * 10 + digitVal c) 0,
          fr, ex⟩, s3)

/-- One JSON number at the head of the input (the grammar `repr` emits):
its decimal structure and the rest of the input. -/
def parseJsonNumber (s : PyStr) : Option (PyFloat × PyStr) :=
  match s with
  | [] => none
  | c :: t =>
    if c = '-' then parseJsonNumberBody true t else parseJsonNumberBody false (c :: t)

/-- Comma-separated numbers up to the closing bracket, fuel recursion. -/
def jsonParseItemsF : Nat → PyStr → Option (List PyFloat)
  | 0, _ => none
  | fuel + 1, s =>
    match parseJsonNumber s with
    | none => none
    | some (f, rest) =>
      match rest with
      | ']' :: [] => some [f]
      | ',' :: ' ' :: more => (jsonParseItemsF fuel more).map (fun l => f :: l)
      | _ => none

/-- `json.loads` restricted to lists of numbers (the inverse direction of
`jsonDumpsFloats`). -/
def jsonParseFloats (s : PyStr) : Option (List PyFloat) :=
  match s with
  | '[' :: rest => if rest = [']'] then some [] else jsonParseItemsF rest.length rest
  | _ => none

/-- The base64 alphabet. -/
def b64Alphabet : List Char :=
  "ABCDEFGHIJKLMNOPQRSTUVWXYZabcdefghijklmnopqrstuvwxyz0123456789+/".toList

def b64Char (n : Nat) : Char := b64Alphabet.getD n 'A'

def b64ValAux : List Char → Nat → Char → Option Nat
  | [], _, _ => none
  | a :: rest, i, c => if a = c then some i else b64ValAux rest (i + 1) c

def b64Val (c : Char) : Option Nat := b64ValAux b64Alphabet 0 c

/-- `base64.b64encode`: chunks of three bytes to four characters, with `=`
padding. -/
def b64encode : List Nat → PyStr
  | [] => []
  | [b0] => [b64Char (b0 / 4), b64Char (b0 % 4 * 16), '=', '=']
  | [b0, b1] => [b64Char (b0 / 4), b64Char (b0 % 4 * 16 + b1 / 16), b64Char (b1 % 16 * 4), '=']
  | b0 :: b1 :: b2 :: rest =>
    b64Char ((b0 * 65536 + b1 * 256 + b2) / 262144) ::
      b64Char ((b0 * 65536 + b1 * 256 + b2) / 4096 % 64) ::
      b64Char ((b0 * 65536 + b1 * 256 + b2) / 64 % 64) ::
      b64Char ((b0 * 65536 + b1 * 256 + b2) % 64) :: b64encode rest

/-- `base64.b64decode`. -/
def b64decode : PyStr → Option (List Nat)
  | [] => some []
  | c0 :: c1 :: c2 :: c3 :: rest =>
    if c3 = '=' ∧ rest = [] then
      if c2 = '=' then
        match b64Val c0, b64Val c1 with
        | some a, some b => some [a * 4 + b / 16]
        | _, _ => none
      else
        match b64Val c0, b64Val c1, b64Val c2 with
        | some a, some b, some c => some [a * 4 + b / 16, b % 16 * 16 + c / 4]
        | _, _, _ => none
    else
      match b64Val c0, b64Val c1, b64Val c2, b64Val c3 with
      | some a, some b, some c, some d =>
        (b64decode rest).map (fun tail =>
          (a * 262144 + b * 4096 + c * 64 + d) / 65536 ::
            (a * 262144 + b * 4096 + c * 64 + d) / 256 % 256 ::
            (a * 262144 + b * 4096 + c * 64 + d) % 256 :: tail)
      | _, _, _, _ => none
  | _ => none

/-- UTF-8 decoding, fuel recursion (at most one fuel unit per decoded
character). -/
def utf8DecodeAux : Nat → List Nat → Option PyStr
  | _, [] => some []
  | 0, _ :: _ => none
  | fuel + 1, b :: rest =>
    if b < 128 then (utf8DecodeAux fuel rest).map (fun s => Char.ofNat b :: s)
    else if b < 192 then none
    else if b < 224 then
      match rest with
      | b1 :: rest' =>
        if 128 ≤ b1 ∧ b1 < 192 then
          (utf8DecodeAux fuel rest').map (fun s => Char.ofNat ((b - 192) * 64 + (b1 - 128)) :: s)
        else none
      | [] => none
    else if b < 240 then
      match rest with
      | b1 :: b2 :: rest' =>
        if 128 ≤ b1 ∧ b1 < 192 ∧ 128 ≤ b2 ∧ b2 < 192 then
          (utf8DecodeAux fuel rest').map (fun s =>
            Char.ofNat ((b - 224) * 4096 + (b1 - 128) * 64 + (b2 - 128)) :: s)
        else none
      | _ => none
    else
      match rest with
      | b1 :: b2 :: b3 :: rest' =>
        if 128 ≤ b1 ∧ b1 < 192 ∧ 128 ≤ b2 ∧ b2 < 192 ∧ 128 ≤ b3 ∧ b3 < 192 then
          (utf8DecodeAux fuel rest').map (fun s =>
            Char.ofNat ((b - 240) * 262144 + (b1 - 128) * 4096 + (b2 - 128) * 64 +
              (b3 - 128)) :: s)
        else none
      | _ => none

/-- Python `bytes.decode('utf-8')`. -/
def utf8Decode (bs : List Nat) : Option PyStr := utf8DecodeAux bs.length bs

/-- `compress_frametimes` from `import_benchmarks.py` (lines 71-77), with
the gzip compressor passed in as a parameter. -/
def compress_frametimes (gz : List Nat → List Nat) (frametimes : List PyFloat) : PyStr :=
  if frametimes = [] then []
  else b64encode (gz (utf8Encode (jsonDumpsFloats frametimes)))

/-- Modelled from the spec: the decompression direction (base64-decode,
gzip-decompress, JSON-parse) lives on the server and is not under `src/`;
per the spec it reproduces the exact numeric sequence and yields an empty
result, not an error, for the empty compressed form.  `gunz` is the gzip
decompressor. -/
def decompress_frametimes (gunz : List Nat → Option (List Nat)) (s : PyStr) :
    Option (List PyFloat) :=
  if s = [] then some []
  else
    match b64decode s with
    | none => none
    | some bytes =>
      match gunz bytes with
      | none => none
      | some raw =>
        match utf8Decode raw with
        | none => none
        | some txt => jsonParseFloats txt

/-! ## Theorems -/

theorem normalizeResolution_of_notmem (r : PyStr) (h : r ∉ resolutionLabels) :
    normalizeResolution r = r := by
  simp only [resolutionLabels, List.mem_cons, List.not_mem_nil, or_false, not_or] at h
  obtain ⟨hf, hw, hu, h3, h2, h1⟩ := h
  have e1 : (r == "3840x2160".toList) = false := beq_eq_false_iff_ne.mpr h1
  have e2 : (r == "2560x1440".toList) = false := beq_eq_false_iff_ne.mpr h2
  have e3 : (r == "1920x1080".toList) = false := beq_eq_false_iff_ne.mpr h3
  have hm : r ∉ RES_MAP_values := by
    intro hm
    simp only [RES_MAP_values, RES_MAP, List.map_cons, List.map_nil, List.mem_cons,
      List.not_mem_nil, or_false] at hm
    rcases hm with h | h | h
    · exact hu h
    · exact hw h
    · exact hf h
  unfold normalizeResolution
  rw [if_neg hm]
  unfold resMapGetD RES_MAP
  simp only [List.lookup, e1, e2, e3]

/-- Claim C1, counterexample: the claim says the grouping normalization maps
the alias `"FHD"` to `"1920x1080"` and returns `"1920x1080"` unchanged; in
the code `"FHD"` is already a fixed point and `"1920x1080"` is mapped to
`"FHD"`. -/
theorem C1_counterexample :
    normalizeResolution "FHD".toList ≠ "1920x1080".toList ∧
      normalizeResolution "1920x1080".toList ≠ "1920x1080".toList := by
  decide

/-- Claim C1 (corrected): the normalization used before grouping maps each
pixel-dimension label to its short code (`"1920x1080"` to `"FHD"`,
`"2560x1440"` to `"WQHD"`, `"3840x2160"` to `"UHD"`), returns the three
short codes `"FHD"`, `"WQHD"`, `"UHD"` unchanged, and passes any other
string through unchanged, so grouping keys on the short-code result. -/
theorem C1_resolution_normalization :
    (normalizeResolution "1920x1080".toList = "FHD".toList ∧
     normalizeResolution "2560x1440".toList = "WQHD".toList ∧
     normalizeResolution "3840x2160".toList = "UHD".toList ∧
     normalizeResolution "FHD".toList = "FHD".toList ∧
     normalizeResolution "WQHD".toList = "WQHD".toList ∧
     normalizeResolution "UHD".toList = "UHD".toList) ∧
    ∀ r : PyStr, r ∉ resolutionLabels → normalizeResolution r = r := by
  refine ⟨by decide, ?_⟩
  exact normalizeResolution_of_notmem

/-- Claim C1, witness: the pass-through clause evaluated at the concrete
non-canonical label `"800x600"`. -/
theorem C1_resolution_normalization_witness :
    normalizeResolution "800x600".toList = "800x600".toList :=
  C1_resolution_normalization.2 "800x600".toList (by decide)

/-- Claim C4, counterexample: the claim says normalizing an already-canonical
resolution label (the spec's canonical set is the pixel-dimension labels)
returns it unchanged, but the code maps `"2560x1440"` to `"WQHD"`. -/
theorem C4_counterexample :
    ¬ normalizeResolution "2560x1440".toList = "2560x1440".toList := by
  decide

/-- Claim C4 (corrected): resolution normalization is idempotent on every
input — in particular applying it twice to `"FHD"` yields the same result
as applying it once — but the fixed points are the short codes
`{"FHD","WQHD","UHD"}`, not the spec's pixel-dimension labels, which
normalize to the short codes. -/
theorem C4_resolution_normalization_idempotent (r : PyStr) :
    normalizeResolution (normalizeResolution r) = normalizeResolution r := by
  by_cases h1 : r = "3840x2160".toList
  · subst h1; decide
  by_cases h2 : r = "2560x1440".toList
  · subst h2; decide
  by_cases h3 : r = "1920x1080".toList
  · subst h3; decide
  by_cases h4 : r = "UHD".toList
  · subst h4; decide
  by_cases h5 : r = "WQHD".toList
  · subst h5; decide
  by_cases h6 : r = "FHD".toList
  · subst h6; decide
  have h : r ∉ resolutionLabels := by
    simp only [resolutionLabels, List.mem_cons, List.not_mem_nil, or_false, not_or]
    exact ⟨h6, h5, h4, h3, h2, h1⟩
  rw [normalizeResolution_of_notmem r h, normalizeResolution_of_notmem r h]

/-- Claim C5 (confirmed): an unprocessed, non-summary trace file is returned
by one poll of `get_new_logs` (and so handed on for analysis) if and only if
the two sizes sampled 0.5 s apart are equal and exceed the 1000-byte sanity
floor. -/
theorem C5_log_detection (files : List LogFile) (processed : List PyStr)
    (f : LogFile) (hmem : f ∈ files)
    (hsum : containsSub f.name "_summary".toList = false)
    (hproc : f.name ∉ processed) :
    f ∈ get_new_logs files processed ↔ (f.size1 = f.size2 ∧ 1000 < f.size1) := by
  unfold get_new_logs
  rw [List.mem_filter]
  have hc : processed.contains f.name = false := by
    simpa using hproc
  have hsum' : containsSub f.name ['_', 's', 'u', 'm', 'm', 'a', 'r', 'y'] = false := hsum
  simp [hmem, hsum', hc, hproc]

/-- Claim C5, witness: a 2000-byte file with stable size is returned; the
same file with a changing size is not; an 800-byte stable file is not. -/
theorem C5_log_detection_witness :
    (⟨"run1.csv".toList, 2000, 2000⟩ : LogFile) ∈
        get_new_logs [⟨"run1.csv".toList, 2000, 2000⟩] [] ∧
      ((⟨"run2.csv".toList, 2000, 2500⟩ : LogFile) ∉
        get_new_logs [⟨"run2.csv".toList, 2000, 2500⟩] []) ∧
      ((⟨"run3.csv".toList, 800, 800⟩ : LogFile) ∉
        get_new_logs [⟨"run3.csv".toList, 800, 800⟩] []) := by
  refine ⟨?_, ?_, ?_⟩
  · exact (C5_log_detection [⟨"run1.csv".toList, 2000, 2000⟩] []
      ⟨"run1.csv".toList, 2000, 2000⟩ (by decide) (by decide) (by decide)).mpr
      (by decide)
  · intro hmem
    have := (C5_log_detection [⟨"run2.csv".toList, 2000, 2500⟩] []
      ⟨"run2.csv".toList, 2000, 2500⟩ (by decide) (by decide) (by decide)).mp hmem
    simp at this
  · intro hmem
    have := (C5_log_detection [⟨"run3.csv".toList, 800, 800⟩] []
      ⟨"run3.csv".toList, 800, 800⟩ (by decide) (by decide) (by decide)).mp hmem
    simp at this

/-- Claim C6, counterexample: on a normal, failure-free exit of
`record_manual` the Steam launch-options restoration step does not run, and
in `record` a failing MangoHud restoration replaces (masks) the original
error raised by the session body. -/
theorem C6_counterexample :
    (recordManualExit .ok false).launchRestoreRan = false ∧
      (recordExit (.err 7) true false).outcome ≠ .raisedBody 7 := by
  decide

/-- Claim C6 (corrected): in `record`'s monitoring phase the MangoHud
restoration runs on every exit path (normal completion, interrupt,
failure), and whenever it does not itself fail the launch-options
restoration also runs and a failure inside it never masks the original
error; but a failing MangoHud restoration skips the launch-options step and
masks the original error, and `record_manual` never runs the launch-options
restoration at all (it never modifies launch options). -/
theorem C6_cleanup_paths :
    (∀ body mangoFails launchFails,
      (recordExit body mangoFails launchFails).mangoRestoreRan = true ∧
      (recordManualExit body mangoFails).mangoRestoreRan = true) ∧
    (∀ body launchFails,
      (recordExit body false launchFails).launchRestoreRan = true) ∧
    (∀ code launchFails,
      (recordExit (.err code) false launchFails).outcome = .raisedBody code) ∧
    (∀ launchFails,
      (recordExit .ok false launchFails).outcome = .completed ∧
      (recordExit .interrupt false launchFails).outcome = .completed) ∧
    (∀ body mangoFails,
      (recordManualExit body mangoFails).launchRestoreRan = false) := by
  refine ⟨?_, ?_, ?_, ?_, ?_⟩
  · intro body mangoFails launchFails
    cases body <;> cases mangoFails <;> cases launchFails <;> simp [recordExit, recordManualExit]
  · intro body launchFails
    cases body <;> simp [recordExit]
  · intro code launchFails
    simp [recordExit]
  · intro launchFails
    simp [recordExit]
  · intro body mangoFails
    cases body <;> cases mangoFails <;> simp [recordManualExit]

/-- Claim C10 (confirmed): with the
Steam config present, `restore_launch_options` writes the empty string
(clearing the options) whenever there is no backup file or the backup holds
no `LaunchOptions` entry for the app, and writes the backed-up string
exactly when such an entry exists. -/
theorem C10_restore_launch_options (env : SteamEnv) (appId : Int)
    (hconf : env.configExists = true) :
    ((env.backupExists = false ∨ env.backupLaunchOptions appId = none) →
        restore_launch_options env appId = .ok []) ∧
      (∀ opts, env.backupExists = true → env.backupLaunchOptions appId = some opts →
        restore_launch_options env appId = .ok opts) := by
  constructor
  · rintro (hb | hb) <;>
      simp [restore_launch_options, get_original_launch_options, clear_launch_options,
        set_launch_options, hconf, hb]
  · intro opts hb hopts
    simp [restore_launch_options, get_original_launch_options, set_launch_options,
      hconf, hb, hopts]

/-- Claim C10, witness: with no backup the options are cleared to `""`; with
a backup entry `"PROTON_LOG=1 %command%"` that string is written back. -/
theorem C10_restore_launch_options_witness :
    restore_launch_options ⟨true, false, fun _ => none⟩ 1091500 = .ok [] ∧
      restore_launch_options
          ⟨true, true, fun _ => some "PROTON_LOG=1 %command%".toList⟩ 1091500 =
        .ok "PROTON_LOG=1 %command%".toList := by
  constructor
  · exact (C10_restore_launch_options ⟨true, false, fun _ => none⟩ 1091500 rfl).1
      (Or.inl rfl)
  · exact (C10_restore_launch_options
      ⟨true, true, fun _ => some "PROTON_LOG=1 %command%".toList⟩ 1091500 rfl).2
      "PROTON_LOG=1 %command%".toList rfl rfl

/-- Claim C9 (confirmed): with `interactive=False`, `GameFinder.find` always
returns a `GameInfo` and never `None`; an integer query yields a `GameInfo`
carrying that Steam App ID even when the game is not installed locally, and
a name query matching neither the local library nor the Steam Store falls
back to a manual-source `GameInfo` named by the query. -/
theorem C9_game_finder_total (env : FinderEnv) (query : PyStr) (th : ℚ) :
    (∃ g, GameFinder.find env query false th = some g) ∧
      (∀ appId : Int, pyInt query = some appId →
        (if env.scannerAvailable then env.getGameById appId else none) = none →
        ∃ g, GameFinder.find env query false th = some g ∧
          g.steamAppId = some appId ∧ g.isInstalled = false) ∧
      (pyInt query = none → searchLocal env query = none →
        env.storeMatches query = [] →
        ∃ g, GameFinder.find env query false th = some g ∧
          g.source = .manual ∧ g.name = query) := by
  refine ⟨?_, ?_, ?_⟩
  · unfold GameFinder.find
    cases hq : pyInt query with
    | some appId => exact ⟨findByAppId env appId, rfl⟩
    | none =>
      cases hl : searchLocal env query with
      | some localResult => exact ⟨localResult, rfl⟩
      | none =>
        cases hs : searchSteamStore env query with
        | nil => exact ⟨GameInfo.manual query, rfl⟩
        | cons first rest =>
          by_cases hth : first.similarityScore ≥ th
          · exact ⟨first, by simp [hth]⟩
          · exact ⟨first, by simp [hth]⟩
  · intro appId hq hnone
    refine ⟨findByAppId env appId, ?_, ?_, ?_⟩
    · unfold GameFinder.find
      rw [hq]
    · unfold findByAppId
      rw [hnone]
    · unfold findByAppId
      rw [hnone]
  · intro hq hl hs
    refine ⟨GameInfo.manual query, ?_, rfl, rfl⟩
    unfold GameFinder.find
    rw [hq, hl]
    have hstore : searchSteamStore env query = [] := by
      unfold searchSteamStore
      rw [hs]
      rfl
    rw [hstore]

/-- Claim C9, witness: an empty environment (no Steam installation, no store
reachability); the integer query `"1091500"` produces an uninstalled
`GameInfo` with that App ID, and the unmatched name query `"No Such Game"`
produces a manual entry of that name. -/
theorem C9_game_finder_total_witness :
    (∃ g, GameFinder.find
        ⟨false, [], fun _ => none, fun _ => [], fun _ _ => 0, fun _ _ => none⟩
        "1091500".toList false (95/100) = some g ∧
        g.steamAppId = some 1091500 ∧ g.isInstalled = false) ∧
      (∃ g, GameFinder.find
        ⟨false, [], fun _ => none, fun _ => [], fun _ _ => 0, fun _ _ => none⟩
        "No Such Game".toList false (95/100) = some g ∧
        g.source = .manual ∧ g.name = "No Such Game".toList) := by
  constructor
  · exact (C9_game_finder_total
      ⟨false, [], fun _ => none, fun _ => [], fun _ _ => 0, fun _ _ => none⟩
      "1091500".toList (95/100)).2.1 1091500 (by decide) rfl
  · exact (C9_game_finder_total
      ⟨false, [], fun _ => none, fun _ => [], fun _ _ => 0, fun _ _ => none⟩
      "No Such Game".toList (95/100)).2.2 (by decide) rfl rfl

theorem containsSub_iff (hay needle : PyStr) :
    containsSub hay needle = true ↔ needle <:+: hay := by
  unfold containsSub
  rw [List.any_eq_true]
  constructor
  · rintro ⟨t, ht, hp⟩
    rw [List.mem_tails] at ht
    rw [List.isPrefixOf_iff_prefix] at hp
    exact hp.isInfix.trans ht.isInfix
  · intro h
    rw [List.infix_iff_prefix_suffix] at h
    obtain ⟨t, hp, hs⟩ := h
    exact ⟨t, (List.mem_tails t hay).mpr hs, List.isPrefixOf_iff_prefix.mpr hp⟩

theorem containsSub_false_of_sub {x m p : PyStr} (hinf : x <:+: m)
    (h : containsSub m p = false) : containsSub x p = false := by
  cases hcx : containsSub x p with
  | false => rfl
  | true =>
    have hxp : p <:+: m := ((containsSub_iff x p).mp hcx).trans hinf
    rw [(containsSub_iff m p).mpr hxp] at h
    exact absurd h (by simp)

theorem dropWhile_dropWhile (p : Char → Bool) (l : List Char) :
    (l.dropWhile p).dropWhile p = l.dropWhile p := by
  induction l with
  | nil => rfl
  | cons x xs ih =>
    by_cases hx : p x = true
    · simp [List.dropWhile_cons, hx, ih]
    · simp at hx
      simp [List.dropWhile_cons, hx]

theorem head_dropWhile_false {p : Char → Bool} :
    ∀ {l : List Char} {c : Char} {rest : List Char},
      l.dropWhile p = c :: rest → p c = false := by
  intro l
  induction l with
  | nil => intro c rest h; exact absurd h (by simp)
  | cons x xs ih =>
    intro c rest h
    by_cases hx : p x = true
    · rw [List.dropWhile_cons, if_pos hx] at h
      exact ih h
    · simp at hx
      rw [List.dropWhile_cons, if_neg (by simp [hx])] at h
      obtain ⟨hc, _⟩ := List.cons.injEq .. ▸ h
      exact hc ▸ hx

theorem dropWhile_eq_self_of_head {p : Char → Bool} {hd : Char} {tl : List Char}
    (h : p hd = false) : (hd :: tl).dropWhile p = hd :: tl := by
  simp [List.dropWhile_cons, h]

theorem pyStrip_infix_self (l : PyStr) : pyStrip l <:+: l := by
  unfold pyStrip
  have h1 : l.dropWhile pyIsSpace <:+ l := List.dropWhile_suffix pyIsSpace
  have h2 : (l.dropWhile pyIsSpace).reverse.dropWhile pyIsSpace <:+
      (l.dropWhile pyIsSpace).reverse := List.dropWhile_suffix pyIsSpace
  have h3 : ((l.dropWhile pyIsSpace).reverse.dropWhile pyIsSpace).reverse <+:
      l.dropWhile pyIsSpace := by
    rw [← List.reverse_suffix]
    simpa using h2
  exact h3.isInfix.trans h1.isInfix

theorem dropWhile_pyStrip (l : PyStr) :
    (pyStrip l).dropWhile pyIsSpace = pyStrip l := by
  unfold pyStrip
  cases hu : ((l.dropWhile pyIsSpace).reverse.dropWhile pyIsSpace).reverse with
  | nil => rfl
  | cons hd tl =>
    have hs := List.dropWhile_suffix (l := (l.dropWhile pyIsSpace).reverse) (p := pyIsSpace)
    obtain ⟨s, hsu⟩ := hs
    have ha : l.dropWhile pyIsSpace =
        ((l.dropWhile pyIsSpace).reverse.dropWhile pyIsSpace).reverse ++ s.reverse := by
      have := congrArg List.reverse hsu
      simpa [List.reverse_append] using this.symm
    rw [hu] at ha
    have hhd : pyIsSpace hd = false := by
      have : l.dropWhile pyIsSpace = hd :: (tl ++ s.reverse) := by simpa using ha
      exact head_dropWhile_false this
    exact dropWhile_eq_self_of_head hhd

theorem pyStrip_pyStrip (l : PyStr) : pyStrip (pyStrip l) = pyStrip l := by
  have h1 : pyStrip (pyStrip l) =
      ((pyStrip l).reverse.dropWhile pyIsSpace).reverse := by
    unfold pyStrip
    rw [show (((l.dropWhile pyIsSpace).reverse.dropWhile pyIsSpace).reverse).dropWhile
        pyIsSpace = ((l.dropWhile pyIsSpace).reverse.dropWhile pyIsSpace).reverse from
      dropWhile_pyStrip l]
  rw [h1]
  unfold pyStrip
  rw [List.reverse_reverse, dropWhile_dropWhile]

theorem takeWhile_append_all {p : Char → Bool} {l₁ : List Char} (l₂ : List Char)
    (h : ∀ x ∈ l₁, p x = true) :
    (l₁ ++ l₂).takeWhile p = l₁ ++ l₂.takeWhile p := by
  induction l₁ with
  | nil => rfl
  | cons x xs ih =>
    have hx : p x = true := h x (by simp)
    simp only [List.cons_append, List.takeWhile_cons, hx, if_true]
    rw [ih (fun y hy => h y (by simp [hy]))]

theorem dropWhile_append_all {p : Char → Bool} {l₁ : List Char} (l₂ : List Char)
    (h : ∀ x ∈ l₁, p x = true) :
    (l₁ ++ l₂).dropWhile p = l₂.dropWhile p := by
  induction l₁ with
  | nil => rfl
  | cons x xs ih =>
    have hx : p x = true := h x (by simp)
    simp only [List.cons_append, List.dropWhile_cons, hx, if_true]
    exact ih (fun y hy => h y (by simp [hy]))

theorem pySplitWsAux_congr :
    ∀ (f₁ : Nat) (f₂ : Nat) (l : PyStr), l.length ≤ f₁ → l.length ≤ f₂ →
      pySplitWsAux f₁ l = pySplitWsAux f₂ l := by
  intro f₁
  induction f₁ with
  | zero =>
    intro f₂ l h1 _
    have : l = [] := by
      cases l with
      | nil => rfl
      | cons x xs => simp at h1
    subst this
    cases f₂ with
    | zero => rfl
    | succ k => simp [pySplitWsAux]
  | succ k ih =>
    intro f₂ l h1 h2
    cases f₂ with
    | zero =>
      have : l = [] := by
        cases l with
        | nil => rfl
        | cons x xs => simp at h2
      subst this
      simp [pySplitWsAux]
    | succ k₂ =>
      cases hd : l.dropWhile pyIsSpace with
      | nil => simp only [pySplitWsAux, hd]
      | cons c rest =>
        have hlen : (c :: rest).length ≤ l.length := by
          rw [← hd]
          exact (List.dropWhile_sublist _).length_le
        have hlen2 : (rest.dropWhile (fun c => !pyIsSpace c)).length ≤ rest.length :=
          (List.dropWhile_sublist _).length_le
        simp only [List.length_cons] at hlen
        simp only [pySplitWsAux, hd]
        rw [ih k₂ (rest.dropWhile (fun c => !pyIsSpace c)) (by omega) (by omega)]

theorem pySplitWs_eq (l : PyStr) :
    pySplitWs l =
      match l.dropWhile pyIsSpace with
      | [] => []
      | c :: rest =>
        (c :: rest.takeWhile (fun c => !pyIsSpace c)) ::
          pySplitWs (rest.dropWhile (fun c => !pyIsSpace c)) := by
  unfold pySplitWs
  cases hlen : l.length with
  | zero =>
    have : l = [] := List.length_eq_zero.mp hlen
    subst this
    rfl
  | succ k =>
    cases hd : l.dropWhile pyIsSpace with
    | nil => simp only [pySplitWsAux, hd]
    | cons c rest =>
      have hl : (c :: rest).length ≤ l.length := by
        rw [← hd]
        exact (List.dropWhile_sublist _).length_le
      have hl2 : (rest.dropWhile (fun c => !pyIsSpace c)).length ≤ rest.length :=
        (List.dropWhile_sublist _).length_le
      simp only [List.length_cons] at hl
      simp only [pySplitWsAux, hd]
      rw [pySplitWsAux_congr k (rest.dropWhile (fun c => !pyIsSpace c)).length
        (rest.dropWhile (fun c => !pyIsSpace c)) (by omega) le_rfl]

theorem pySplitWs_congr_dropWhile {l₁ l₂ : PyStr}
    (h : l₁.dropWhile pyIsSpace = l₂.dropWhile pyIsSpace) :
    pySplitWs l₁ = pySplitWs l₂ := by
  rw [pySplitWs_eq, pySplitWs_eq, h]

theorem pySplitWs_tokens :
    ∀ (l : PyStr) (t : PyStr), t ∈ pySplitWs l →
      t ≠ [] ∧ (∀ ch ∈ t, pyIsSpace ch = false) ∧ t <:+: l := by
  suffices h : ∀ (fuel : Nat) (l : PyStr) (t : PyStr), t ∈ pySplitWsAux fuel l →
      t ≠ [] ∧ (∀ ch ∈ t, pyIsSpace ch = false) ∧ t <:+: l by
    intro l t ht
    exact h l.length l t ht
  intro fuel
  induction fuel with
  | zero => intro l t ht; simp [pySplitWsAux] at ht
  | succ k ih =>
    intro l t ht
    cases hd : l.dropWhile pyIsSpace with
    | nil => simp only [pySplitWsAux, hd] at ht; simp at ht
    | cons c rest =>
      simp only [pySplitWsAux, hd] at ht
      simp only [List.mem_cons] at ht
      have hsuffix : c :: rest <:+ l := by
        rw [← hd]; exact List.dropWhile_suffix pyIsSpace
      rcases ht with ht | ht
      · subst ht
        refine ⟨by simp, ?_, ?_⟩
        · intro ch hch
          rcases List.mem_cons.mp hch with hch | hch
          · subst hch; exact head_dropWhile_false hd
          · have := List.mem_takeWhile_imp hch
            simpa using this
        · have hpre : c :: rest.takeWhile (fun c => !pyIsSpace c) <+: c :: rest :=
            List.cons_prefix_cons.mpr ⟨rfl, List.takeWhile_prefix _⟩
          exact hpre.isInfix.trans hsuffix.isInfix
      · have := ih (rest.dropWhile (fun c => !pyIsSpace c)) t ht
        refine ⟨this.1, this.2.1, ?_⟩
        have h1 : rest.dropWhile (fun c => !pyIsSpace c) <:+ rest :=
          List.dropWhile_suffix _
        have h2 : rest <:+ c :: rest := by
          exact ⟨[c], rfl⟩
        exact this.2.2.trans ((h1.trans (h2.trans hsuffix)).isInfix)

theorem pyJoin_sep_cons (t t' : PyStr) (ts : List PyStr) :
    pyJoin [' '] (t :: t' :: ts) = t ++ ' ' :: pyJoin [' '] (t' :: ts) := by
  simp [pyJoin]

theorem pySplitWs_pyJoin :
    ∀ (ts : List PyStr), ts ≠ [] →
      (∀ t ∈ ts, t ≠ [] ∧ ∀ ch ∈ t, pyIsSpace ch = false) →
      pySplitWs (pyJoin [' '] ts) = ts := by
  intro ts
  induction ts with
  | nil => intro h; exact absurd rfl h
  | cons t ts ih =>
    intro _ htok
    obtain ⟨htne, htws⟩ := htok t (by simp)
    obtain ⟨hd, tl, rfl⟩ : ∃ hd tl, t = hd :: tl := by
      cases t with
      | nil => exact absurd rfl htne
      | cons hd tl => exact ⟨hd, tl, rfl⟩
    have hhd : pyIsSpace hd = false := htws hd (by simp)
    have htl : ∀ ch ∈ tl, pyIsSpace ch = false := fun ch hch => htws ch (by simp [hch])
    cases ts with
    | nil =>
      rw [pySplitWs_eq]
      have h1 : tl.takeWhile (fun c => !pyIsSpace c) = tl :=
        List.takeWhile_eq_self_iff.mpr (by intro x hx; simp [htl x hx])
      have h2 : tl.dropWhile (fun c => !pyIsSpace c) = [] :=
        List.dropWhile_eq_nil_iff.mpr (by intro x hx; simp [htl x hx])
      simp only [pyJoin, dropWhile_eq_self_of_head hhd, h1, h2]
      rfl
    | cons t' ts' =>
      rw [pyJoin_sep_cons, pySplitWs_eq]
      have hjoin : (hd :: tl) ++ ' ' :: pyJoin [' '] (t' :: ts') =
          hd :: (tl ++ ' ' :: pyJoin [' '] (t' :: ts')) := by simp
      have h1 : (tl ++ ' ' :: pyJoin [' '] (t' :: ts')).takeWhile (fun c => !pyIsSpace c) =
          tl := by
        rw [takeWhile_append_all _ (by intro x hx; simp [htl x hx])]
        simp [List.takeWhile_cons, pyIsSpace]
      have h2 : (tl ++ ' ' :: pyJoin [' '] (t' :: ts')).dropWhile (fun c => !pyIsSpace c) =
          ' ' :: pyJoin [' '] (t' :: ts') := by
        rw [dropWhile_append_all _ (by intro x hx; simp [htl x hx])]
        simp [List.dropWhile_cons, pyIsSpace]
      have h3 : pySplitWs (' ' :: pyJoin [' '] (t' :: ts')) =
          pySplitWs (pyJoin [' '] (t' :: ts')) := by
        apply pySplitWs_congr_dropWhile
        simp [List.dropWhile_cons, pyIsSpace]
      simp only [hjoin, dropWhile_eq_self_of_head hhd, h1, h2, h3]
      rw [ih (by simp) (fun u hu => htok u (by simp [hu]))]

theorem pyJoin_ne_nil {t : PyStr} (ts : List PyStr) (h : t ≠ []) :
    pyJoin [' '] (t :: ts) ≠ [] := by
  cases ts with
  | nil => simpa [pyJoin] using h
  | cons t' ts' =>
    rw [pyJoin_sep_cons]
    simp

theorem nospace_prefix {c : Char} :
    ∀ {p a b : PyStr}, c ∉ p → p <+: (a ++ c :: b) → p <+: a := by
  intro p
  induction p with
  | nil => intro a b _ _; exact List.nil_prefix
  | cons x p' ih =>
    intro a b hc hp
    cases a with
    | nil =>
      simp only [List.nil_append] at hp
      rw [List.cons_prefix_cons] at hp
      exact absurd (hp.1 ▸ List.mem_cons_self x p') hc
    | cons y a' =>
      simp only [List.cons_append] at hp
      rw [List.cons_prefix_cons] at hp
      obtain ⟨rfl, hp'⟩ := hp
      have := ih (fun hm => hc (List.mem_cons_of_mem _ hm)) hp'
      exact List.cons_prefix_cons.mpr ⟨rfl, this⟩

theorem nospace_infix_append {c : Char} :
    ∀ {a : PyStr} {p b : PyStr}, c ∉ p → p <:+: (a ++ c :: b) →
      p <:+: a ∨ p <:+: b := by
  intro a
  induction a with
  | nil =>
    intro p b hc hp
    simp only [List.nil_append] at hp
    rcases List.infix_cons_iff.mp hp with hpre | hinf
    · cases p with
      | nil => exact Or.inl List.nil_infix
      | cons x p' =>
        rw [List.cons_prefix_cons] at hpre
        exact absurd (hpre.1 ▸ List.mem_cons_self x p') hc
    · exact Or.inr hinf
  | cons y a' ih =>
    intro p b hc hp
    simp only [List.cons_append] at hp
    rcases List.infix_cons_iff.mp hp with hpre | hinf
    · have : p <+: y :: a' := by
        have := nospace_prefix (a := y :: a') hc (by simpa using hpre)
        exact this
      exact Or.inl this.isInfix
    · rcases ih hc hinf with h | h
      · exact Or.inl (List.infix_cons h)
      · exact Or.inr h

theorem nospace_infix_pyJoin :
    ∀ (ts : List PyStr) (p : PyStr), p ≠ [] → ' ' ∉ p →
      p <:+: pyJoin [' '] ts → ∃ t ∈ ts, p <:+: t := by
  intro ts
  induction ts with
  | nil =>
    intro p hne _ hp
    simp only [pyJoin] at hp
    exact absurd (List.infix_nil.mp hp) hne
  | cons t ts ih =>
    intro p hne hsp hp
    cases ts with
    | nil =>
      simp only [pyJoin] at hp
      exact ⟨t, by simp, hp⟩
    | cons t' ts' =>
      rw [pyJoin_sep_cons] at hp
      rcases nospace_infix_append hsp hp with h | h
      · exact ⟨t, by simp, h⟩
      · obtain ⟨u, hu, hpu⟩ := ih p hne hsp h
        exact ⟨u, by simp [hu], hpu⟩

theorem pySplit_ne_nil (sep : Char) (l : PyStr) : pySplit sep l ≠ [] := by
  induction l with
  | nil => simp [pySplit]
  | cons x xs ih =>
    unfold pySplit
    by_cases hx : x = sep
    · simp [hx]
    · simp only [if_neg hx]
      cases h : pySplit sep xs with
      | nil => exact absurd h ih
      | cons a t => simp

theorem pySplit_headI (sep : Char) (l : PyStr) :
    (pySplit sep l).headI = l.takeWhile (fun c => c != sep) := by
  induction l with
  | nil => rfl
  | cons x xs ih =>
    unfold pySplit
    by_cases hx : x = sep
    · subst hx
      simp [List.takeWhile_cons]
    · simp only [if_neg hx]
      cases h : pySplit sep xs with
      | nil => exact absurd h (pySplit_ne_nil sep xs)
      | cons a t =>
        have : a = xs.takeWhile (fun c => c != sep) := by
          have := ih
          rw [h] at this
          simpa using this
        simp [List.takeWhile_cons, hx, this]

theorem b64Val_b64Char : ∀ n, n < 64 → b64Val (b64Char n) = some n := by
  decide

theorem b64Char_ne_eq : ∀ n, n < 64 → b64Char n ≠ '=' := by
  decide

theorem b64_roundtrip : ∀ (bytes : List Nat), (∀ x ∈ bytes, x < 256) →
    b64decode (b64encode bytes) = some bytes
  | [], _ => rfl
  | [b0], h => by
    have hb0 : b0 < 256 := h b0 (by simp)
    have h1 : b0 / 4 < 64 := by omega
    have h2 : b0 % 4 * 16 < 64 := by omega
    simp only [b64encode, b64decode]
    simp [b64Val_b64Char _ h1, b64Val_b64Char _ h2]
    omega
  | [b0, b1], h => by
    have hb0 : b0 < 256 := h b0 (by simp)
    have hb1 : b1 < 256 := h b1 (by simp)
    have h1 : b0 / 4 < 64 := by omega
    have h2 : b0 % 4 * 16 + b1 / 16 < 64 := by omega
    have h3 : b1 % 16 * 4 < 64 := by omega
    simp only [b64encode, b64decode]
    simp [b64Val_b64Char _ h1, b64Val_b64Char _ h2, b64Val_b64Char _ h3,
      b64Char_ne_eq _ h3]
    omega
  | b0 :: b1 :: b2 :: rest, h => by
    have ih := b64_roundtrip rest (fun x hx => h x (by simp [hx]))
    have hb0 : b0 < 256 := h b0 (by simp)
    have hb1 : b1 < 256 := h b1 (by simp)
    have hb2 : b2 < 256 := h b2 (by simp)
    have h1 : (b0 * 65536 + b1 * 256 + b2) / 262144 < 64 := by omega
    have h2 : (b0 * 65536 + b1 * 256 + b2) / 4096 % 64 < 64 := by omega
    have h3 : (b0 * 65536 + b1 * 256 + b2) / 64 % 64 < 64 := by omega
    have h4 : (b0 * 65536 + b1 * 256 + b2) % 64 < 64 := by omega
    simp only [b64encode, b64decode]
    simp [b64Val_b64Char _ h1, b64Val_b64Char _ h2, b64Val_b64Char _ h3,
      b64Val_b64Char _ h4, b64Char_ne_eq _ h4, ih]
    refine ⟨by omega, by omega, by omega⟩

theorem digitVal_digitChar : ∀ n, n < 10 → digitVal (digitChar n) = n := by
  decide

theorem natReprAux_digits :
    ∀ (fuel n : Nat), n < fuel → ∀ c ∈ natReprAux fuel n,
      isDigit c = true ∧ c.toNat < 128 := by
  intro fuel
  induction fuel with
  | zero => intro n hn; omega
  | succ f ih =>
    intro n hn c hc
    by_cases h10 : n < 10
    · simp only [natReprAux, if_pos h10, List.mem_singleton] at hc
      subst hc
      interval_cases n <;> decide
    · simp only [natReprAux, if_neg h10, List.mem_append, List.mem_singleton] at hc
      rcases hc with hc | hc
      · exact ih (n / 10) (by omega) c hc
      · subst hc
        have : n % 10 < 10 := Nat.mod_lt _ (by omega)
        interval_cases h : n % 10 <;> decide

theorem natReprAux_ne_nil :
    ∀ (fuel n : Nat), n < fuel → natReprAux fuel n ≠ [] := by
  intro fuel n hn
  cases fuel with
  | zero => omega
  | succ f =>
    by_cases h10 : n < 10
    · simp [natReprAux, if_pos h10]
    · simp [natReprAux, if_neg h10]

theorem natReprAux_foldl :
    ∀ (fuel n acc : Nat), n < fuel →
      (natReprAux fuel n).foldl (fun a c => a * 10 + digitVal c) acc =
        acc * 10 ^ (natReprAux fuel n).length + n := by
  intro fuel
  induction fuel with
  | zero => intro n acc hn; omega
  | succ f ih =>
    intro n acc hn
    by_cases h10 : n < 10
    · simp only [natReprAux, if_pos h10, List.foldl_cons, List.foldl_nil,
        List.length_singleton, pow_one]
      rw [digitVal_digitChar n h10]
    · simp only [natReprAux, if_neg h10, List.foldl_append, List.foldl_cons,
        List.foldl_nil, List.length_append, List.length_singleton]

      rw [ih (n / 10) acc (by omega)]
      rw [digitVal_digitChar (n % 10) (Nat.mod_lt _ (by omega))]
      rw [pow_succ]
      have : acc * (10 ^ (natReprAux f (n / 10)).length * 10) =
          acc * 10 ^ (natReprAux f (n / 10)).length * 10 := by ring
      rw [this]
      omega

theorem isDigit_digitChar : ∀ d, d < 10 → isDigit (digitChar d) = true := by
  decide

theorem digitChar_toNat_lt : ∀ d, d < 10 → (digitChar d).toNat < 128 := by
  decide

theorem map_digitVal_digitChar (ds : List Nat) (h : ∀ d ∈ ds, d < 10) :
    (ds.map digitChar).map digitVal = ds := by
  induction ds with
  | nil => rfl
  | cons d ds' ih =>
    simp only [List.map_cons, List.cons.injEq]
    exact ⟨digitVal_digitChar d (h d (by simp)),
      ih (fun x hx => h x (by simp [hx]))⟩

theorem natRepr_ne_nil (n : Nat) : natRepr n ≠ [] :=
  natReprAux_ne_nil (n + 1) n (by omega)

theorem natRepr_isDigit (n : Nat) : ∀ ch ∈ natRepr n, isDigit ch = true :=
  fun ch hch => (natReprAux_digits (n + 1) n (by omega) ch hch).1

theorem dropWhile_of_takeWhile_nil {p : Char → Bool} :
    ∀ {X : PyStr}, X.takeWhile p = [] → X.dropWhile p = X := by
  intro X h
  cases X with
  | nil => rfl
  | cons c xs =>
    cases hpc : p c with
    | true => simp [List.takeWhile_cons, hpc] at h
    | false => simp [List.dropWhile_cons, hpc]

theorem digits_run_take (ds : List Nat) (h : ∀ d ∈ ds, d < 10) (X : PyStr)
    (hX : X.takeWhile isDigit = []) :
    ((ds.map digitChar) ++ X).takeWhile isDigit = ds.map digitChar := by
  rw [takeWhile_append_all _ (by
    intro x hx
    rw [List.mem_map] at hx
    obtain ⟨d, hd, rfl⟩ := hx
    exact isDigit_digitChar d (h d hd))]
  rw [hX, List.append_nil]

theorem digits_run_drop (ds : List Nat) (h : ∀ d ∈ ds, d < 10) (X : PyStr)
    (hX : X.takeWhile isDigit = []) :
    ((ds.map digitChar) ++ X).dropWhile isDigit = X := by
  rw [dropWhile_append_all _ (by
    intro x hx
    rw [List.mem_map] at hx
    obtain ⟨d, hd, rfl⟩ := hx
    exact isDigit_digitChar d (h d hd))]
  exact dropWhile_of_takeWhile_nil hX

theorem parseFracPart_repr (fr : List Nat) (hfr : ∀ d ∈ fr, d < 10) (c : Char)
    (rest : PyStr) (hc : isDigit c = false) (hdot : c ≠ '.') :
    parseFracPart ((if fr = [] then [] else '.' :: fr.map digitChar) ++ c :: rest) =
      some (fr, c :: rest) := by
  have hstop : (c :: rest).takeWhile isDigit = [] := by
    simp [List.takeWhile_cons, hc]
  by_cases hfre : fr = []
  · subst hfre
    have h0 : (if ([] : List Nat) = [] then ([] : PyStr)
        else '.' :: List.map digitChar []) = [] := rfl
    rw [h0, List.nil_append]
    simp only [parseFracPart]
    rw [if_neg hdot]
  · rw [if_neg hfre, List.cons_append]
    simp only [parseFracPart]
    rw [if_true]
    rw [digits_run_take fr hfr _ hstop, digits_run_drop fr hfr _ hstop]
    rw [if_neg (show ¬ List.map digitChar fr = [] from by simpa using hfre)]
    rw [map_digitVal_digitChar fr hfr]

theorem parseExpPart_none (c : Char) (rest : PyStr) (he : c ≠ 'e') :
    parseExpPart (c :: rest) = some (none, c :: rest) := by
  cases rest with
  | nil => rfl
  | cons r rs =>
    simp only [parseExpPart]
    rw [if_neg he]

theorem parseExpPart_some (es : Bool) (ds : List Nat) (hds : ds ≠ [])
    (hd10 : ∀ d ∈ ds, d < 10) (c : Char) (rest : PyStr) (hc : isDigit c = false) :
    parseExpPart ('e' :: (if es then '-' else '+') :: (ds.map digitChar ++ c :: rest)) =
      some (some (es, ds), c :: rest) := by
  have hstop : (c :: rest).takeWhile isDigit = [] := by
    simp [List.takeWhile_cons, hc]
  have hmapne : List.map digitChar ds ≠ [] := by simpa using hds
  cases es with
  | true =>
    show parseExpPart ('e' :: '-' :: (ds.map digitChar ++ c :: rest)) =
      some (some (true, ds), c :: rest)
    simp only [parseExpPart]
    rw [if_true, if_pos (Or.inr True.intro)]
    rw [digits_run_take ds hd10 _ hstop, digits_run_drop ds hd10 _ hstop]
    rw [if_neg hmapne, map_digitVal_digitChar ds hd10]
    rfl
  | false =>
    show parseExpPart ('e' :: '+' :: (ds.map digitChar ++ c :: rest)) =
      some (some (false, ds), c :: rest)
    simp only [parseExpPart]
    rw [if_true, if_pos (Or.inl True.intro)]
    rw [digits_run_take ds hd10 _ hstop, digits_run_drop ds hd10 _ hstop]
    rw [if_neg hmapne, map_digitVal_digitChar ds hd10]
    rfl

theorem parseJsonNumberBody_repr (sign : Bool) (ip : Nat) (X : PyStr)
    (hX : X.takeWhile isDigit = []) :
    parseJsonNumberBody sign (natRepr ip ++ X) =
      match parseFracPart X with
      | none => none
      | some (fr, s2) =>
        match parseExpPart s2 with
        | none => none
        | some (ex, s3) => some (⟨sign, ip, fr, ex⟩, s3) := by
  unfold parseJsonNumberBody
  rw [takeWhile_append_all _ (natRepr_isDigit ip), hX, List.append_nil,
    dropWhile_append_all _ (natRepr_isDigit ip), dropWhile_of_takeWhile_nil hX]
  rw [if_neg (natRepr_ne_nil ip)]
  have hfold : (natRepr ip).foldl (fun a c => a * 10 + digitVal c) 0 =
      0 * 10 ^ (natRepr ip).length + ip := natReprAux_foldl (ip + 1) ip 0 (by omega)
  simp only [Nat.zero_mul, Nat.zero_add] at hfold
  rw [hfold]

theorem wf_frac {f : PyFloat} (hwf : f.WF = true) : ∀ d ∈ f.frac, d < 10 := by
  unfold PyFloat.WF at hwf
  rw [Bool.and_eq_true] at hwf
  have := hwf.1
  rw [List.all_eq_true] at this
  intro d hd
  simpa using this d hd

theorem wf_exp {f : PyFloat} {es : Bool} {ds : List Nat}
    (hwf : f.WF = true) (hex : f.exp = some (es, ds)) :
    ds ≠ [] ∧ ∀ d ∈ ds, d < 10 := by
  unfold PyFloat.WF at hwf
  rw [Bool.and_eq_true] at hwf
  have h2 := hwf.2
  rw [hex] at h2
  rw [Bool.and_eq_true] at h2
  constructor
  · intro hnil
    subst hnil
    simp at h2
  · have := h2.2
    rw [List.all_eq_true] at this
    intro d hd
    simpa using this d hd

theorem parseJsonNumber_neg_dispatch (neg : Bool) (ip : Nat) (X : PyStr) :
    parseJsonNumber ((if neg then ['-'] else []) ++ (natRepr ip ++ X)) =
      parseJsonNumberBody neg (natRepr ip ++ X) := by
  obtain ⟨d, t, hd⟩ : ∃ d t, natRepr ip = d :: t := by
    cases h : natRepr ip with
    | nil => exact absurd h (natRepr_ne_nil ip)
    | cons a b => exact ⟨a, b, rfl⟩
  have hdd : isDigit d = true := natRepr_isDigit ip d (by rw [hd]; simp)
  have hdneg : d ≠ '-' := by
    intro hcontra
    rw [hcontra] at hdd
    exact absurd hdd (by decide)
  cases neg with
  | true =>
    show parseJsonNumber ('-' :: (natRepr ip ++ X)) =
      parseJsonNumberBody true (natRepr ip ++ X)
    simp only [parseJsonNumber]
    rw [if_true]
  | false =>
    show parseJsonNumber (natRepr ip ++ X) =
      parseJsonNumberBody false (natRepr ip ++ X)
    rw [hd, List.cons_append]
    simp only [parseJsonNumber]
    rw [if_neg hdneg]

theorem parseJsonNumber_repr (f : PyFloat) (hwf : f.WF = true) (c : Char)
    (rest : PyStr) (hc : isDigit c = false) (hdot : c ≠ '.') (he : c ≠ 'e') :
    parseJsonNumber (pyFloatRepr f ++ c :: rest) = some (f, c :: rest) := by
  obtain ⟨neg, ip, fr, ex⟩ := f
  have hfr : ∀ d ∈ fr, d < 10 := wf_frac hwf
  cases ex with
  | none =>
    have hsplit : pyFloatRepr ⟨neg, ip, fr, none⟩ ++ c :: rest =
        (if neg then ['-'] else []) ++ (natRepr ip ++
          ((if fr = [] then [] else '.' :: fr.map digitChar) ++ c :: rest)) := by
      simp [pyFloatRepr, List.append_assoc]
    have hX : (((if fr = [] then [] else '.' :: fr.map digitChar) ++
        c :: rest)).takeWhile isDigit = [] := by
      by_cases hfre : fr = []
      · rw [if_pos hfre, List.nil_append]
        simp [List.takeWhile_cons, hc]
      · rw [if_neg hfre, List.cons_append]
        have hdotd : isDigit '.' = false := by decide
        simp [List.takeWhile_cons, hdotd]
    rw [hsplit, parseJsonNumber_neg_dispatch, parseJsonNumberBody_repr _ _ _ hX]
    simp only [parseFracPart_repr fr hfr c rest hc hdot,
      parseExpPart_none c rest he]
  | some p =>
    obtain ⟨es, ds⟩ := p
    obtain ⟨hds, hd10⟩ := wf_exp hwf rfl
    have hsplit : pyFloatRepr ⟨neg, ip, fr, some (es, ds)⟩ ++ c :: rest =
        (if neg then ['-'] else []) ++ (natRepr ip ++
          ((if fr = [] then [] else '.' :: fr.map digitChar) ++
            ('e' :: (if es then '-' else '+') :: (ds.map digitChar ++ c :: rest)))) := by
      simp [pyFloatRepr, List.append_assoc]
    have hed : isDigit 'e' = false := by decide
    have hX : (((if fr = [] then [] else '.' :: fr.map digitChar) ++
        ('e' :: (if es then '-' else '+') ::
          (ds.map digitChar ++ c :: rest)))).takeWhile isDigit = [] := by
      by_cases hfre : fr = []
      · rw [if_pos hfre, List.nil_append]
        simp [List.takeWhile_cons, hed]
      · rw [if_neg hfre, List.cons_append]
        have hdotd : isDigit '.' = false := by decide
        simp [List.takeWhile_cons, hdotd]
    rw [hsplit, parseJsonNumber_neg_dispatch, parseJsonNumberBody_repr _ _ _ hX]
    simp only [parseFracPart_repr fr hfr 'e' _ hed (by decide),
      parseExpPart_some es ds hds hd10 c rest hc]

theorem pyFloatRepr_length_pos (f : PyFloat) : 1 ≤ (pyFloatRepr f).length := by
  obtain ⟨d, t, hd⟩ : ∃ d t, natRepr f.intPart = d :: t := by
    cases h : natRepr f.intPart with
    | nil => exact absurd h (natRepr_ne_nil f.intPart)
    | cons a b => exact ⟨a, b, rfl⟩
  unfold pyFloatRepr
  rw [hd]
  simp only [List.length_append, List.length_cons]
  omega

theorem pyFloatRepr_ne_nil (f : PyFloat) : pyFloatRepr f ≠ [] := by
  intro h
  have := pyFloatRepr_length_pos f
  rw [h] at this
  simp at this

theorem pyJoin_cons₂ (sep : PyStr) (t t' : PyStr) (ts : List PyStr) :
    pyJoin sep (t :: t' :: ts) = t ++ sep ++ pyJoin sep (t' :: ts) := rfl

theorem jsonParseItemsF_ser :
    ∀ (l : List PyFloat) (fuel : Nat), l ≠ [] → (∀ f ∈ l, f.WF = true) →
      (pyJoin ", ".toList (l.map pyFloatRepr) ++ [']']).length ≤ fuel →
      jsonParseItemsF fuel (pyJoin ", ".toList (l.map pyFloatRepr) ++ [']']) =
        some l := by
  intro l
  induction l with
  | nil => intro fuel h; exact absurd rfl h
  | cons g l' ih =>
    intro fuel _ hwf hfuel
    have hgwf : g.WF = true := hwf g (by simp)
    cases l' with
    | nil =>
      simp only [List.map_cons, List.map_nil] at hfuel ⊢
      have hser : pyJoin ", ".toList [pyFloatRepr g] ++ [']'] =
          pyFloatRepr g ++ [']'] := rfl
      rw [hser] at hfuel ⊢
      cases fuel with
      | zero =>
        exfalso
        have := pyFloatRepr_length_pos g
        simp only [List.length_append] at hfuel
        omega
      | succ f =>
        simp only [jsonParseItemsF,
          parseJsonNumber_repr g hgwf ']' [] (by decide) (by decide) (by decide)]
    | cons g' l'' =>
      simp only [List.map_cons] at hfuel ⊢
      have hser : pyJoin ", ".toList
            (pyFloatRepr g :: pyFloatRepr g' :: l''.map pyFloatRepr) ++ [']'] =
          pyFloatRepr g ++ ',' :: ' ' ::
            (pyJoin ", ".toList (pyFloatRepr g' :: l''.map pyFloatRepr) ++ [']']) := by
        rw [pyJoin_cons₂]
        simp
      rw [hser] at hfuel ⊢
      have hlen1 := pyFloatRepr_length_pos g
      simp only [List.length_append, List.length_cons] at hfuel
      cases fuel with
      | zero => omega
      | succ f =>
        have hih := ih f (by simp) (fun u hu => hwf u (by simp [hu])) (by
          simp only [List.map_cons, List.length_append, List.length_cons]
          omega)
        simp only [List.map_cons] at hih
        simp only [jsonParseItemsF,
          parseJsonNumber_repr g hgwf ',' _ (by decide) (by decide) (by decide),
          hih, Option.map_some]
        rfl

theorem jsonParseFloats_bracket (rest : PyStr) :
    jsonParseFloats ('[' :: rest) =
      if rest = [']'] then some [] else jsonParseItemsF rest.length rest := rfl

theorem jsonDumpsF_roundtrip (l : List PyFloat) (hwf : ∀ f ∈ l, f.WF = true) :
    jsonParseFloats (jsonDumpsFloats l) = some l := by
  cases l with
  | nil => rfl
  | cons g l' =>
    unfold jsonDumpsFloats
    have hne : pyJoin ", ".toList ((g :: l').map pyFloatRepr) ≠ [] := by
      simp only [List.map_cons]
      cases h : l'.map pyFloatRepr with
      | nil =>
        simp only [pyJoin]
        exact pyFloatRepr_ne_nil g
      | cons t ts =>
        rw [pyJoin_cons₂]
        simp only [ne_eq, List.append_assoc, List.append_eq_nil]
        intro hcontra
        exact pyFloatRepr_ne_nil g hcontra.1
    have hneq : pyJoin ", ".toList ((g :: l').map pyFloatRepr) ++ [']'] ≠ [']'] := by
      intro hcontra
      apply hne
      have hlen := congrArg List.length hcontra
      simp only [List.length_append, List.length_cons, List.length_nil] at hlen
      exact List.eq_nil_of_length_eq_zero (by omega)
    rw [jsonParseFloats_bracket, if_neg hneq]
    exact jsonParseItemsF_ser (g :: l') _ (by simp) hwf le_rfl

theorem char_toNat_lt (c : Char) : c.toNat < 1114112 := by
  have h := c.valid
  rcases h with h | h
  · exact Nat.lt_trans h (by norm_num)
  · exact h.2

theorem utf8EncodeChar_lt_256 (c : Char) : ∀ x ∈ utf8EncodeChar c, x < 256 := by
  intro x hx
  have hv := char_toNat_lt c
  unfold utf8EncodeChar at hx
  by_cases h1 : c.toNat < 128
  · simp only [if_pos h1, List.mem_singleton] at hx
    omega
  · by_cases h2 : c.toNat < 2048
    · simp only [if_neg h1, if_pos h2, List.mem_cons, List.not_mem_nil, or_false] at hx
      rcases hx with hx | hx <;> omega
    · by_cases h3 : c.toNat < 65536
      · simp only [if_neg h1, if_neg h2, if_pos h3, List.mem_cons, List.not_mem_nil,
          or_false] at hx
        rcases hx with hx | hx | hx <;> omega
      · simp only [if_neg h1, if_neg h2, if_neg h3, List.mem_cons, List.not_mem_nil,
          or_false] at hx
        rcases hx with hx | hx | hx | hx <;> omega

theorem utf8Encode_lt_256 (s : PyStr) : ∀ x ∈ utf8Encode s, x < 256 := by
  intro x hx
  unfold utf8Encode at hx
  rw [List.mem_flatten] at hx
  obtain ⟨bs, hbs, hxbs⟩ := hx
  rw [List.mem_map] at hbs
  obtain ⟨c, _, rfl⟩ := hbs
  exact utf8EncodeChar_lt_256 c x hxbs

theorem utf8_ascii_roundtrip :
    ∀ (fuel : Nat) (s : PyStr), s.length ≤ fuel → (∀ c ∈ s, c.toNat < 128) →
      utf8DecodeAux fuel (utf8Encode s) = some s := by
  intro fuel
  induction fuel with
  | zero =>
    intro s hlen _
    have : s = [] := by
      cases s with
      | nil => rfl
      | cons c s' => simp at hlen
    subst this
    rfl
  | succ f ih =>
    intro s hlen hascii
    cases s with
    | nil => rfl
    | cons c s' =>
      have hc : c.toNat < 128 := hascii c (by simp)
      have henc : utf8Encode (c :: s') = c.toNat :: utf8Encode s' := by
        unfold utf8Encode utf8EncodeChar
        simp only [List.map_cons, List.flatten_cons, if_pos hc, List.singleton_append]
      rw [henc]
      simp only [utf8DecodeAux, if_pos hc]
      rw [ih s' (by simpa using hlen) (fun x hx => hascii x (by simp [hx]))]
      simp [Char.ofNat_toNat]

theorem utf8Encode_length_ge (s : PyStr) : s.length ≤ (utf8Encode s).length := by
  induction s with
  | nil => simp [utf8Encode]
  | cons c s' ih =>
    have : utf8Encode (c :: s') = utf8EncodeChar c ++ utf8Encode s' := by
      unfold utf8Encode
      simp [List.map_cons, List.flatten_cons]
    rw [this, List.length_append, List.length_cons]
    have hne : 1 ≤ (utf8EncodeChar c).length := by
      unfold utf8EncodeChar
      by_cases h1 : c.toNat < 128
      · simp [if_pos h1]
      · by_cases h2 : c.toNat < 2048
        · simp [if_neg h1, if_pos h2]
        · by_cases h3 : c.toNat < 65536
          · simp [if_neg h1, if_neg h2, if_pos h3]
          · simp [if_neg h1, if_neg h2, if_neg h3]
    omega

theorem mem_pyJoin (sep : PyStr) :
    ∀ (ts : List PyStr) (c : Char), c ∈ pyJoin sep ts →
      c ∈ sep ∨ ∃ t ∈ ts, c ∈ t := by
  intro ts
  induction ts with
  | nil => intro c hc; simp [pyJoin] at hc
  | cons t ts' ih =>
    intro c hc
    cases ts' with
    | nil =>
      simp only [pyJoin] at hc
      exact Or.inr ⟨t, by simp, hc⟩
    | cons t' ts'' =>
      rw [pyJoin_cons₂] at hc
      simp only [List.mem_append] at hc
      rcases hc with (hc | hc) | hc
      · exact Or.inr ⟨t, by simp, hc⟩
      · exact Or.inl hc
      · rcases ih c hc with h | ⟨u, hu, hcu⟩
        · exact Or.inl h
        · exact Or.inr ⟨u, by simp [hu], hcu⟩

theorem pyFloatRepr_ascii (f : PyFloat) (hwf : f.WF = true) :
    ∀ c ∈ pyFloatRepr f, c.toNat < 128 := by
  intro c hc
  unfold pyFloatRepr at hc
  simp only [List.mem_append] at hc
  rcases hc with ((hs | hn) | hf) | he
  · by_cases hneg : f.neg = true
    · rw [if_pos hneg] at hs
      have hcm : c = '-' := by simpa using hs
      subst hcm
      decide
    · rw [if_neg hneg] at hs
      simp at hs
  · exact (natReprAux_digits (f.intPart + 1) f.intPart (by omega) c hn).2
  · by_cases hfr : f.frac = []
    · rw [if_pos hfr] at hf
      simp at hf
    · rw [if_neg hfr] at hf
      rcases List.mem_cons.mp hf with rfl | hf'
      · decide
      · rw [List.mem_map] at hf'
        obtain ⟨d, hd, rfl⟩ := hf'
        exact digitChar_toNat_lt d (wf_frac hwf d hd)
  · cases hex : f.exp with
    | none =>
      simp only [hex] at he
      simp at he
    | some p =>
      obtain ⟨es, ds⟩ := p
      simp only [hex] at he
      obtain ⟨_, hd10⟩ := wf_exp hwf hex
      rcases List.mem_cons.mp he with rfl | he'
      · decide
      · rcases List.mem_cons.mp he' with rfl | he''
        · cases es <;> decide
        · rw [List.mem_map] at he''
          obtain ⟨d, hd, rfl⟩ := he''
          exact digitChar_toNat_lt d (hd10 d hd)

theorem jsonDumpsF_ascii (l : List PyFloat) (hwf : ∀ f ∈ l, f.WF = true) :
    ∀ c ∈ jsonDumpsFloats l, c.toNat < 128 := by
  intro c hc
  unfold jsonDumpsFloats at hc
  simp only [List.mem_cons, List.mem_append, List.mem_singleton] at hc
  rcases hc with rfl | hc | hc
  · decide
  · rcases mem_pyJoin ", ".toList (l.map pyFloatRepr) c hc with h | ⟨t, ht, hct⟩
    · have h' : c = ',' ∨ c = ' ' := by simpa using h
      rcases h' with rfl | rfl <;> decide
    · rw [List.mem_map] at ht
      obtain ⟨f, hf, rfl⟩ := ht
      exact pyFloatRepr_ascii f (hwf f hf) c hct
  · rcases hc with rfl | h
    · decide
    · simp at h

theorem b64encode_ne_nil (b : Nat) (rest : List Nat) :
    b64encode (b :: rest) ≠ [] := by
  cases rest with
  | nil => simp [b64encode]
  | cons b1 rest' =>
    cases rest' with
    | nil => simp [b64encode]
    | cons b2 rest'' => simp [b64encode]

/-- Claim C2 (confirmed): for every frame-interval sequence of floats
(each float modelled by the decimal numeral `repr` prints, which Python
guarantees round-trips to the identical float value), including the empty
sequence, compressing (JSON-serialize, gzip-compress, base64-encode) and
then decompressing (base64-decode, gzip-decompress, JSON-parse) reproduces
exactly the original sequence; the empty sequence round-trips to an empty
result through the `""` special case, not an error.  The gzip codec is an
abstract parameter required to be lossless, to emit non-empty byte strings,
and to emit bytes. -/
theorem C2_compress_roundtrip (gz : List Nat → List Nat)
    (gunz : List Nat → Option (List Nat))
    (hinv : ∀ bs, gunz (gz bs) = some bs)
    (hgz : ∀ bs, (∀ x ∈ bs, x < 256) → gz bs ≠ [] ∧ ∀ x ∈ gz bs, x < 256)
    (frametimes : List PyFloat) (hwf : ∀ f ∈ frametimes, f.WF = true) :
    decompress_frametimes gunz (compress_frametimes gz frametimes) =
      some frametimes := by
  by_cases hempty : frametimes = []
  · subst hempty
    rfl
  · unfold compress_frametimes
    rw [if_neg hempty]
    have hb : ∀ x ∈ utf8Encode (jsonDumpsFloats frametimes), x < 256 :=
      utf8Encode_lt_256 _
    obtain ⟨hgzne, hgzb⟩ := hgz _ hb
    obtain ⟨g0, grest, hgeq⟩ : ∃ g0 grest,
        gz (utf8Encode (jsonDumpsFloats frametimes)) = g0 :: grest := by
      cases hg : gz (utf8Encode (jsonDumpsFloats frametimes)) with
      | nil => exact absurd hg hgzne
      | cons a b => exact ⟨a, b, rfl⟩
    unfold decompress_frametimes
    rw [if_neg (by rw [hgeq]; exact b64encode_ne_nil g0 grest)]
    have hdec : utf8Decode (utf8Encode (jsonDumpsFloats frametimes)) =
        some (jsonDumpsFloats frametimes) := by
      unfold utf8Decode
      exact utf8_ascii_roundtrip _ _
        (le_trans (utf8Encode_length_ge _) le_rfl)
        (jsonDumpsF_ascii frametimes hwf)
    simp only [b64_roundtrip _ hgzb, hinv, hdec,
      jsonDumpsF_roundtrip frametimes hwf]

/-- Claim C2, witness: the pipeline round-trips the fixture trace
`[16.67, 16.5, 16.8]` (each float as its printed decimal numeral) and the
empty trace, with a simple injective stand-in for the gzip codec (prepend
a zero byte). -/
theorem C2_compress_roundtrip_witness :
    decompress_frametimes (fun bs => some (bs.drop 1))
        (compress_frametimes (fun bs => 0 :: bs)
          [⟨false, 16, [6, 7], none⟩, ⟨false, 16, [5], none⟩,
            ⟨false, 16, [8], none⟩]) =
        some [⟨false, 16, [6, 7], none⟩, ⟨false, 16, [5], none⟩,
          ⟨false, 16, [8], none⟩] ∧
      decompress_frametimes (fun bs => some (bs.drop 1))
        (compress_frametimes (fun bs => 0 :: bs) []) = some [] := by
  constructor
  · exact C2_compress_roundtrip (fun bs => 0 :: bs) (fun bs => some (bs.drop 1))
      (fun bs => by simp)
      (fun bs h => ⟨by simp, by
        intro x hx
        rcases List.mem_cons.mp hx with rfl | hx
        · omega
        · exact h x hx⟩)
      [⟨false, 16, [6, 7], none⟩, ⟨false, 16, [5], none⟩,
        ⟨false, 16, [8], none⟩]
      (by decide)
  · exact C2_compress_roundtrip (fun bs => 0 :: bs) (fun bs => some (bs.drop 1))
      (fun bs => by simp)
      (fun bs h => ⟨by simp, by
        intro x hx
        rcases List.mem_cons.mp hx with rfl | hx
        · omega
        · exact h x hx⟩)
      []
      (by decide)

theorem shorten_cpu_idem (m : PyStr) (hm : pySplitWs m ≠ []) :
    shorten_cpu (shorten_cpu m) = shorten_cpu m := by
  have hmne : m ≠ [] := by
    intro h
    subst h
    exact hm rfl
  by_cases h1 : containsSub m "9800X3D".toList = true
  · have e : shorten_cpu m = "Ryzen 7 9800X3D".toList := by
      unfold shorten_cpu
      rw [if_neg hmne, if_pos h1]
    rw [e]
    decide
  by_cases h2 : containsSub m "i5-1135G7".toList = true
  · have e : shorten_cpu m = "i5-1135G7".toList := by
      unfold shorten_cpu
      rw [if_neg hmne, if_neg h1, if_pos h2]
    rw [e]
    decide
  -- default branch: r = " ".join(model.split()[:4])
  have e : shorten_cpu m = pyJoin " ".toList ((pySplitWs m).take 4) := by
    unfold shorten_cpu
    rw [if_neg hmne, if_neg h1, if_neg h2]
  have hsep : (" ".toList : PyStr) = [' '] := rfl
  obtain ⟨t₀, ts, hts⟩ : ∃ t₀ ts, (pySplitWs m).take 4 = t₀ :: ts := by
    cases h : (pySplitWs m).take 4 with
    | nil =>
      rw [List.take_eq_nil_iff] at h
      rcases h with h | h
      · exact absurd h (by omega)
      · exact absurd h hm
    | cons a b => exact ⟨a, b, rfl⟩
  have htok : ∀ t ∈ (pySplitWs m).take 4, t ≠ [] ∧ ∀ ch ∈ t, pyIsSpace ch = false := by
    intro t ht
    have := pySplitWs_tokens m t (List.mem_of_mem_take ht)
    exact ⟨this.1, this.2.1⟩
  have hrne : pyJoin " ".toList ((pySplitWs m).take 4) ≠ [] := by
    rw [hsep, hts]
    exact pyJoin_ne_nil ts (htok t₀ (hts ▸ List.mem_cons_self t₀ ts)).1
  have hnosub : ∀ pat : PyStr, pat ≠ [] → ' ' ∉ pat → containsSub m pat = false →
      containsSub (pyJoin " ".toList ((pySplitWs m).take 4)) pat = false := by
    intro pat hpne hpsp hpm
    cases hc : containsSub (pyJoin " ".toList ((pySplitWs m).take 4)) pat with
    | false => rfl
    | true =>
      rw [hsep] at hc
      have hinf := (containsSub_iff _ pat).mp hc
      obtain ⟨t, htmem, htinf⟩ := nospace_infix_pyJoin _ pat hpne hpsp hinf
      have htm : t <:+: m := (pySplitWs_tokens m t (List.mem_of_mem_take htmem)).2.2
      rw [(containsSub_iff m pat).mpr (htinf.trans htm)] at hpm
      exact absurd hpm (by simp)
  have hf1 : containsSub m "9800X3D".toList = false := by
    cases hx : containsSub m "9800X3D".toList with
    | false => rfl
    | true => exact absurd hx h1
  have hf2 : containsSub m "i5-1135G7".toList = false := by
    cases hx : containsSub m "i5-1135G7".toList with
    | false => rfl
    | true => exact absurd hx h2
  rw [e]
  unfold shorten_cpu
  rw [if_neg hrne,
    if_neg (by rw [hnosub "9800X3D".toList (by decide) (by decide) hf1]; simp),
    if_neg (by rw [hnosub "i5-1135G7".toList (by decide) (by decide) hf2]; simp)]
  have hsplit : pySplitWs (pyJoin " ".toList ((pySplitWs m).take 4)) =
      (pySplitWs m).take 4 := by
    rw [hsep]
    exact pySplitWs_pyJoin _ (by rw [hts]; simp) htok
  rw [hsplit, List.take_take]
  norm_num

theorem shorten_gpu_idem (m : PyStr)
    (hne : pyStrip (pySplit '(' m).headI ≠ [])
    (hlen : (pyStrip (pySplit '(' m).headI).length ≤ 40)
    (hxtx : ¬(containsSub m "7900 XT".toList = true ∧ containsSub m "XTX".toList = true ∧
        containsSub m "7900 XTX".toList = false)) :
    shorten_gpu (shorten_gpu m) = shorten_gpu m := by
  by_cases h0 : m = []
  · subst h0
    decide
  by_cases h1 : containsSub m "7900 XTX".toList = true
  · have e : shorten_gpu m = "RX 7900 XTX".toList := by
      unfold shorten_gpu
      rw [if_neg h0, if_pos h1]
    rw [e]
    decide
  by_cases h2 : (containsSub m "7900 XT".toList && !containsSub m "XTX".toList) = true
  · have e : shorten_gpu m = "RX 7900 XT".toList := by
      unfold shorten_gpu
      rw [if_neg h0, if_neg h1, if_pos h2]
    rw [e]
    decide
  by_cases h3 : containsSub m "7800 XT".toList = true
  · have e : shorten_gpu m = "RX 7800 XT".toList := by
      unfold shorten_gpu
      rw [if_neg h0, if_neg h1, if_neg h2, if_pos h3]
    rw [e]
    decide
  by_cases h4 : (containsSub m "Iris".toList && containsSub m "Xe".toList) = true
  · by_cases h4t : containsSub m "TGL".toList = true
    · have e : shorten_gpu m = "Iris Xe (TGL)".toList := by
        unfold shorten_gpu
        rw [if_neg h0, if_neg h1, if_neg h2, if_neg h3, if_pos h4, if_pos h4t]
      rw [e]
      decide
    · have e : shorten_gpu m = "Iris Xe".toList := by
        unfold shorten_gpu
        rw [if_neg h0, if_neg h1, if_neg h2, if_neg h3, if_pos h4, if_neg h4t]
      rw [e]
      decide
  by_cases h5 : containsSub m "RTX 4090".toList = true
  · have e : shorten_gpu m = "RTX 4090".toList := by
      unfold shorten_gpu
      rw [if_neg h0, if_neg h1, if_neg h2, if_neg h3, if_neg h4, if_pos h5]
    rw [e]
    decide
  by_cases h6 : containsSub m "RTX 4080".toList = true
  · have e : shorten_gpu m = "RTX 4080".toList := by
      unfold shorten_gpu
      rw [if_neg h0, if_neg h1, if_neg h2, if_neg h3, if_neg h4, if_neg h5, if_pos h6]
    rw [e]
    decide
  by_cases h7 : containsSub m "RTX 4070".toList = true
  · have e : shorten_gpu m = "RTX 4070".toList := by
      unfold shorten_gpu
      rw [if_neg h0, if_neg h1, if_neg h2, if_neg h3, if_neg h4, if_neg h5, if_neg h6,
        if_pos h7]
    rw [e]
    decide
  -- default branch
  have e : shorten_gpu m = pyStrip (pySplit '(' m).headI := by
    unfold shorten_gpu
    rw [if_neg h0, if_neg h1, if_neg h2, if_neg h3, if_neg h4, if_neg h5, if_neg h6,
      if_neg h7]
    simp only []
    rw [if_neg (by omega)]
  have hsinf : pyStrip (pySplit '(' m).headI <:+: m := by
    have h1' : (pySplit '(' m).headI <+: m := by
      rw [pySplit_headI]
      exact List.takeWhile_prefix _
    exact (pyStrip_infix_self _).trans h1'.isInfix
  have hparen : ∀ c ∈ pyStrip (pySplit '(' m).headI, (c != '(') = true := by
    intro c hc
    have hc' : c ∈ (pySplit '(' m).headI :=
      (pyStrip_infix_self (pySplit '(' m).headI).sublist.subset hc
    rw [pySplit_headI] at hc'
    have hmem := List.mem_takeWhile_imp hc'
    simpa using hmem
  have hfalse : ∀ pat : PyStr, containsSub m pat = false →
      containsSub (pyStrip (pySplit '(' m).headI) pat = false := fun pat h =>
    containsSub_false_of_sub hsinf h
  have bfalse : ∀ b : Bool, ¬ b = true → b = false := by
    intro b hb
    cases b with
    | false => rfl
    | true => exact absurd rfl hb
  have hc1 := bfalse _ h1
  have hc3 := bfalse _ h3
  have hc5 := bfalse _ h5
  have hc6 := bfalse _ h6
  have hc7 := bfalse _ h7
  have hc2 : containsSub m "7900 XT".toList = false := by
    cases hx : containsSub m "7900 XT".toList with
    | false => rfl
    | true =>
      have hxtxm : containsSub m "XTX".toList = true := by
        cases hy : containsSub m "XTX".toList with
        | true => rfl
        | false =>
          rw [hx, hy] at h2
          exact absurd rfl h2
      exact absurd ⟨hx, hxtxm, hc1⟩ hxtx
  rw [e]
  unfold shorten_gpu
  rw [if_neg hne, if_neg (by rw [hfalse _ hc1]; simp),
    if_neg (by rw [hfalse _ hc2]; simp),
    if_neg (by rw [hfalse _ hc3]; simp),
    if_neg (by
      rcases Bool.and_eq_false_iff.mp (bfalse _ h4) with h | h
      · rw [hfalse _ h]
        simp
      · rw [hfalse _ h]
        simp),
    if_neg (by rw [hfalse _ hc5]; simp),
    if_neg (by rw [hfalse _ hc6]; simp),
    if_neg (by rw [hfalse _ hc7]; simp)]
  have hh : (pySplit '(' (pyStrip (pySplit '(' m).headI)).headI =
      pyStrip (pySplit '(' m).headI := by
    rw [pySplit_headI]
    exact List.takeWhile_eq_self_iff.mpr hparen
  simp only [hh, pyStrip_pyStrip]
  rw [if_neg (by omega)]

/-- Claim C7, counterexample: neither `shorten_gpu` nor `shorten_cpu` is
idempotent on all inputs: a whitespace-only model collapses to `""` and then
to `"Unknown"`, `"7900 XT (XTX"` shortens to `"7900 XT"` which shortens
again to `"RX 7900 XT"`, and the 40-character truncation can leave a
trailing space that a second pass strips. -/
theorem C7_counterexample :
    shorten_cpu (shorten_cpu [' ']) ≠ shorten_cpu [' '] ∧
      shorten_gpu (shorten_gpu [' ']) ≠ shorten_gpu [' '] ∧
      shorten_gpu (shorten_gpu "7900 XT (XTX".toList) ≠ shorten_gpu "7900 XT (XTX".toList ∧
      shorten_gpu
          (shorten_gpu (List.replicate 39 'a' ++ ' ' :: List.replicate 10 'b')) ≠
        shorten_gpu (List.replicate 39 'a' ++ ' ' :: List.replicate 10 'b') := by
  decide

/-- Claim C7 (corrected): the hardware-name normalizations are idempotent
away from degenerate inputs — `shorten_cpu` on every model string containing
a non-whitespace character, and `shorten_gpu` on every model string whose
stripped pre-parenthesis prefix is nonempty and at most 40 characters and
that does not contain `"7900 XT"` and `"XTX"` without containing
`"7900 XTX"` — but not on all inputs (see the counterexample). -/
theorem C7_shorten_idempotent :
    (∀ m : PyStr, pySplitWs m ≠ [] → shorten_cpu (shorten_cpu m) = shorten_cpu m) ∧
      (∀ m : PyStr, pyStrip (pySplit '(' m).headI ≠ [] →
        (pyStrip (pySplit '(' m).headI).length ≤ 40 →
        ¬(containsSub m "7900 XT".toList = true ∧ containsSub m "XTX".toList = true ∧
            containsSub m "7900 XTX".toList = false) →
        shorten_gpu (shorten_gpu m) = shorten_gpu m) :=
  ⟨shorten_cpu_idem, shorten_gpu_idem⟩

/-- Claim C7, witness: idempotence evaluated at realistic CPU and GPU model
strings. -/
theorem C7_shorten_idempotent_witness :
    shorten_cpu (shorten_cpu "AMD Ryzen 9 7950X 16-Core Processor".toList) =
        shorten_cpu "AMD Ryzen 9 7950X 16-Core Processor".toList ∧
      shorten_gpu (shorten_gpu "AMD Radeon RX 6800 XT".toList) =
        shorten_gpu "AMD Radeon RX 6800 XT".toList := by
  constructor
  · exact C7_shorten_idempotent.1 "AMD Ryzen 9 7950X 16-Core Processor".toList (by decide)
  · exact C7_shorten_idempotent.2 "AMD Radeon RX 6800 XT".toList (by decide) (by decide)
      (by decide)

/-- Claim C8 (confirmed): the persisted system record consists of exactly
the seven fields bound by the importer's `INSERT INTO systems`: the
fingerprint hash, the OS name, the kernel string truncated at the first
hyphen, the normalized GPU model, the GPU driver version, the normalized
CPU model, and the RAM total truncated to a whole-gigabyte integer. -/
theorem C8_system_record_fields (sys : SysInfo) :
    buildSystemRecord sys =
      { systemHash := system_hash (sys.osName.getD "Linux".toList)
          (shorten_gpu (sys.gpuModel.getD "Unknown".toList))
          (shorten_cpu (sys.cpuModel.getD "Unknown".toList))
        os := sys.osName.getD "Linux".toList
        kernel := (sys.kernel.getD []).takeWhile (fun c => c != '-')
        gpu := shorten_gpu (sys.gpuModel.getD "Unknown".toList)
        gpuDriver := sys.gpuDriverVersion.getD []
        cpu := shorten_cpu (sys.cpuModel.getD "Unknown".toList)
        ramGb := pyTrunc (sys.ramTotalGb.getD 0) } := by
  unfold buildSystemRecord
  rw [pySplit_headI]

theorem byteHex_flatten_length (l : List Nat) :
    ((l.map byteHex).flatten).length = 2 * l.length := by
  induction l with
  | nil => rfl
  | cons b rest ih =>
    simp only [List.map_cons, List.flatten_cons, List.length_append, List.length_cons, ih,
      byteHex, List.length_cons, List.length_nil]
    ring

theorem md5Digest_length (msg : List Nat) : (md5Digest msg).length = 16 := by
  unfold md5Digest
  rcases md5Blocks (0x67452301, 0xefcdab89, 0x98badcfe, 0x10325476) (md5Pad msg) with
    ⟨a, b, c, d⟩
  simp [toLE4]

theorem md5Hexdigest_length (msg : List Nat) : (md5Hexdigest msg).length = 32 := by
  unfold md5Hexdigest
  rw [byteHex_flatten_length, md5Digest_length]

set_option maxRecDepth 400000 in
/-- Claim C3 (confirmed): `system_hash` is a fixed-width (8 hex characters)
deterministic function of exactly the OS name, normalized GPU model and
normalized CPU model, and changing any single one of the three fixture
inputs changes the output. -/
theorem C3_system_hash_fingerprint :
    (∀ osName gpu cpu : PyStr, (system_hash osName gpu cpu).length = 8) ∧
      (∀ os₁ gpu₁ cpu₁ os₂ gpu₂ cpu₂ : PyStr, os₁ = os₂ → gpu₁ = gpu₂ → cpu₁ = cpu₂ →
        system_hash os₁ gpu₁ cpu₁ = system_hash os₂ gpu₂ cpu₂) ∧
      (system_hash "Linux".toList "RX 7900 XTX".toList "Ryzen 7 9800X3D".toList ≠
          system_hash "Arch Linux".toList "RX 7900 XTX".toList "Ryzen 7 9800X3D".toList ∧
        system_hash "Linux".toList "RX 7900 XTX".toList "Ryzen 7 9800X3D".toList ≠
          system_hash "Linux".toList "RTX 4090".toList "Ryzen 7 9800X3D".toList ∧
        system_hash "Linux".toList "RX 7900 XTX".toList "Ryzen 7 9800X3D".toList ≠
          system_hash "Linux".toList "RX 7900 XTX".toList "i5-1135G7".toList) := by
  refine ⟨?_, ?_, by decide, by decide, by decide⟩
  · intro osName gpu cpu
    unfold system_hash
    rw [List.length_take, md5Hexdigest_length]
    decide
  · intro os₁ gpu₁ cpu₁ os₂ gpu₂ cpu₂ h1 h2 h3
    rw [h1, h2, h3]

/-- Claim C3, witness: the determinism clause applied at the concrete
fixture inputs. -/
theorem C3_system_hash_fingerprint_witness :
    system_hash "Linux".toList "RX 7900 XTX".toList "Ryzen 7 9800X3D".toList =
      system_hash "Linux".toList "RX 7900 XTX".toList "Ryzen 7 9800X3D".toList :=
  C3_system_hash_fingerprint.2.1 "Linux".toList "RX 7900 XTX".toList "Ryzen 7 9800X3D".toList
    "Linux".toList "RX 7900 XTX".toList "Ryzen 7 9800X3D".toList rfl rfl rfl

end LGB
